import Mathlib

/-!
# trab_ppd: resumable file transfer (trab_server.c, trab_client.c)

A shallow embedding of the server (`client_handler`, the rate limiter, the
accept loop of `main`) and of the client (`transfer_file` and its helpers),
followed by the properties proved about them.

Conventions of the embedding

* A byte is a natural number; text is a list of bytes (`lit` turns a C string
  literal into its bytes, without the terminating NUL).
* `int`, `off_t`, `ssize_t` and `long long` values are integers (`Int`); the
  theorems stay inside the ranges where the C arithmetic does not overflow.
* A file system is a finite map from paths to file contents.
* Everything the operating system or the peer decides (how many bytes a
  `send`/`recv`/`write` moves, the clock, whether `open`/`rename` succeed) is an
  explicit input of the function that makes the call.
-/

namespace Trab

/-! ## Bytes and C strings -/

/-- Bytes of a C string literal (terminating NUL not included). -/
def lit (s : String) : List Nat := s.toList.map Char.toNat

/-- The C string held in a zero-initialised buffer: the bytes before the first NUL. -/
def cstr (buf : List Nat) : List Nat := buf.takeWhile (fun b => b != 0)

/-- Result of `send(sock, literal, n, 0)`: the first `n` bytes of the literal's
storage, which is its text followed by one NUL byte. -/
def send_lit (s : String) (n : Nat) : List Nat := (lit s ++ [0]).take n

def BUFFER_SIZE : Nat := 4096
def CHUNK_SIZE : Nat := 128

def LLONG_MAX : Int := 9223372036854775807
def LLONG_MIN : Int := -9223372036854775808

def isspace (c : Nat) : Bool := c == 32 || (9 ≤ c && c ≤ 13)
def isdigit (c : Nat) : Bool := 48 ≤ c && c ≤ 57

/-- Digit loop of `atoll`: accumulates leading decimal digits, stops at the
first other byte. -/
def atoll_digits : List Nat → Nat → Nat
  | [], acc => acc
  | c :: cs, acc => if isdigit c then atoll_digits cs (acc * 10 + (c - 48)) else acc

/-- The libc function `atoll` (as `strtoll(s, NULL, 10)`): skips white space,
reads an optional sign and the leading digits, yields 0 when there are none and
saturates at the `long long` bounds. It never reports an error. -/
def atoll (s : List Nat) : Int :=
  match s.dropWhile isspace with
  | 45 :: cs => max LLONG_MIN (-(atoll_digits cs 0 : Int))
  | 43 :: cs => min LLONG_MAX (atoll_digits cs 0 : Int)
  | cs => min LLONG_MAX (atoll_digits cs 0 : Int)

/-- Decimal digits of a natural number, most significant first. -/
def dec_digits : Nat → Nat → List Nat → List Nat
  | 0, _, acc => acc
  | fuel + 1, n, acc =>
    if n < 10 then (48 + n) :: acc else dec_digits fuel (n / 10) ((48 + n % 10) :: acc)

/-- Text produced by the conversion `%lld`. -/
def fmt_lld (n : Int) : List Nat :=
  if n < 0 then 45 :: dec_digits (n.natAbs + 1) n.natAbs [] else dec_digits (n.natAbs + 1) n.natAbs []

/-- One call of `strtok(_, "|")` on the text still to be scanned: skips leading
delimiters; `none` when nothing is left, else the token and the text after the
delimiter that ended it. -/
def strtok (s : List Nat) : Option (List Nat × List Nat) :=
  match s.dropWhile (fun b => b == 124) with
  | [] => none
  | t => some (t.takeWhile (fun b => b != 124), (t.dropWhile (fun b => b != 124)).drop 1)

/-- The library call `strncmp(s, p, |p|) == 0` for a literal `p` without NUL. -/
def strncmp_eq (s p : List Nat) : Bool := s.take p.length == p

/-- The library call `strstr(s, p) != NULL`. -/
def strstr (s p : List Nat) : Bool :=
  match s with
  | [] => p.isEmpty
  | c :: cs => p.isPrefixOf (c :: cs) || strstr cs p

/-- Text produced by `snprintf(buf, size, ...)` from the untruncated text: at
most `size - 1` bytes are kept. -/
def snprintf (size : Nat) (text : List Nat) : List Nat := text.take (size - 1)

/-! ## File system -/

abbrev Path := List Nat

/-- Files are kept as an association list, later entries shadowed by earlier ones. -/
abbrev FS := List (Path × List Nat)

def FS.stat (fs : FS) (p : Path) : Option (List Nat) := fs.lookup p

def FS.put (fs : FS) (p : Path) (d : List Nat) : FS := (p, d) :: fs.filter (fun e => e.1 != p)

def FS.unlink (fs : FS) (p : Path) : FS := fs.filter (fun e => e.1 != p)

/-- The system call `rename(src, dst)`: fails (file system untouched) when `src` does
not exist; renaming a file to itself changes nothing. -/
def FS.rename (fs : FS) (src dst : Path) : Option FS :=
  match fs.stat src with
  | none => none
  | some d => some ((fs.unlink src).put dst d)

/-- Content of a file after `write` of `bs` at position `pos`: a position past
the end leaves a hole that reads as zero bytes; writing nothing changes nothing. -/
def write_at (data : List Nat) (pos : Nat) (bs : List Nat) : List Nat :=
  match bs with
  | [] => data
  | _ :: _ =>
    data.take pos ++ List.replicate (pos - data.length) 0 ++ bs ++ data.drop (pos + bs.length)

/-- The system call `lseek(fd, off, SEEK_SET)` on a regular file: a negative offset
fails with -1 and leaves the position where it was. -/
def lseek_set (pos : Nat) (off : Int) : Nat × Int :=
  if off < 0 then (pos, -1) else (off.toNat, off)

/-- Return value of a socket `send`/`recv` asked for `length` bytes when the
connection offers `res`: an error or close (`res ≤ 0`) is passed on, otherwise at
most `length` bytes move. -/
def sock_result (length res : Int) : Int := if res ≤ 0 then res else min res length

/-- Return value of `recv(sock, buf, length, 0)` while `pending` bytes are still to
arrive on the connection (none left: the peer has closed, `recv` returns 0). -/
def recv_result (length : Int) (pending : Nat) (res : Int) : Int :=
  if pending = 0 then 0 else sock_result (min length pending) res

/-- Return value of `write(fd, buf, n)` when the disk accepts `disk` bytes
(negative: the call fails with -1). -/
def write_result (n disk : Int) : Int := if disk < 0 then -1 else min n disk

/-! ## Server: rate limiter (trab_server.c, lines 29-91) -/

/-- The globals `bytes_transferred_this_second` and `last_time`. -/
structure RateState where
  bytes_transferred_this_second : Int
  last_time : Int
  deriving DecidableEq, Repr

/-- The function `get_available_bytes`, given the value `now` of `time(NULL)` and the
value of `current_clients` it reads. The quotient is C integer division. -/
def get_available_bytes (RATE_LIMIT current_clients now : Int) (st : RateState) :
    RateState × Int :=
  let st1 : RateState :=
    if now ≠ st.last_time then { bytes_transferred_this_second := 0, last_time := now } else st
  let remaining := RATE_LIMIT - st1.bytes_transferred_this_second
  let clients_count := if current_clients > 0 then current_clients else 1
  let per_client_available := Int.tdiv remaining clients_count
  (st1, if per_client_available < 1 then 1 else per_client_available)

def update_bytes_transferred (bytes : Int) (st : RateState) : RateState :=
  { st with bytes_transferred_this_second := st.bytes_transferred_this_second + bytes }

/-- The polling loop `wait_for_available_bytes`, run for at most `fuel` iterations:
`none` when it is still sleeping after that many. -/
def wait_for_available_bytes (RATE_LIMIT current_clients now : Int) :
    Nat → RateState → Option RateState
  | 0, _ => none
  | fuel + 1, st =>
    let r := get_available_bytes RATE_LIMIT current_clients now st
    if r.2 > 0 then some r.1 else wait_for_available_bytes RATE_LIMIT current_clients now fuel r.1

/-- What the environment decides during one throttled socket call and the
`write` that may follow it. -/
structure IoStep where
  /-- the value of `time(NULL)` -/
  now : Int
  /-- the value of `current_clients` read by the rate limiter -/
  clients : Int
  /-- the number of bytes the socket offers to move (`≤ 0`: error or close) -/
  res : Int
  /-- the number of bytes the disk accepts in the following `write` -/
  disk : Int
  deriving DecidableEq, Repr

/-- The function `throttled_send` asked to send `length` bytes; returns the new rate state
and the value returned to the caller. -/
def throttled_send (RATE_LIMIT : Int) (io : IoStep) (st : RateState) (length : Int) :
    RateState × Int :=
  match wait_for_available_bytes RATE_LIMIT io.clients io.now 1 st with
  | none => (st, -1)
  | some st1 =>
    let r := get_available_bytes RATE_LIMIT io.clients io.now st1
    let available := r.2
    let length := if length > available then available else length
    let s := sock_result length io.res
    (if s > 0 then update_bytes_transferred s r.1 else r.1, s)

/-- The function `throttled_recv` asked for `length` bytes while `pending` bytes are still
to arrive on the connection. -/
def throttled_recv (RATE_LIMIT : Int) (io : IoStep) (st : RateState) (length : Int)
    (pending : Nat) : RateState × Int :=
  match wait_for_available_bytes RATE_LIMIT io.clients io.now 1 st with
  | none => (st, -1)
  | some st1 =>
    let r := get_available_bytes RATE_LIMIT io.clients io.now st1
    let available := r.2
    let length := if length > available then available else length
    let got := recv_result length pending io.res
    (if got > 0 then update_bytes_transferred got r.1 else r.1, got)

/-! ## Server: throttled calls of concurrent connections

The server runs one thread per connection. `rate_lock` is held only inside
`get_available_bytes` and `update_bytes_transferred`, so a call of `throttled_send`
or `throttled_recv` is four separate steps, and the steps of different
connections interleave. -/

/-- Where a connection thread is inside a throttled call: outside of it; past
`wait_for_available_bytes`; past the second `get_available_bytes`, about to call
`send` or `recv` with the capped `length`; or back from the socket call with its
result, about to update the counter and return. -/
inductive Phase where
  | idle
  | polled
  | moving (length : Int)
  | counting (result : Int)
  deriving DecidableEq, Repr

/-- The rate limiter globals, the phase of each connection thread, and the number
of bytes the socket calls have moved so far. -/
structure Shared where
  rate : RateState
  phases : List Phase
  moved : Int
  deriving DecidableEq, Repr

/-- Steps of the connection threads inside `throttled_send` and `throttled_recv`,
with what the environment decides in each. -/
inductive RateEv where
  /-- the call of `wait_for_available_bytes` -/
  | poll (conn : Nat) (now clients : Int)
  /-- the second call of `get_available_bytes` and the capping of the requested `length` -/
  | cap (conn : Nat) (now clients : Int) (length : Nat)
  /-- the socket call: `send`, or `recv` while `pending` bytes are still to arrive -/
  | move (conn : Nat) (res : Int) (pending : Option Nat)
  /-- the statement `if (s > 0) update_bytes_transferred((int)s)` and the return -/
  | count (conn : Nat)
  deriving DecidableEq, Repr

/-- One step of a connection thread; `none` when that thread is not at that step. -/
def rate_step (RATE_LIMIT : Int) (s : Shared) : RateEv → Option Shared
  | RateEv.poll i now clients =>
    match s.phases[i]? with
    | some Phase.idle =>
      match wait_for_available_bytes RATE_LIMIT clients now 1 s.rate with
      | none => none
      | some r => some { s with rate := r, phases := s.phases.set i Phase.polled }
    | _ => none
  | RateEv.cap i now clients length =>
    match s.phases[i]? with
    | some Phase.polled =>
      let g := get_available_bytes RATE_LIMIT clients now s.rate
      let available := g.2
      let length : Int := if (length : Int) > available then available else length
      some { s with rate := g.1, phases := s.phases.set i (Phase.moving length) }
    | _ => none
  | RateEv.move i res pending =>
    match s.phases[i]? with
    | some (Phase.moving length) =>
      let r :=
        match pending with
        | none => sock_result length res
        | some p => recv_result length p res
      some { s with phases := s.phases.set i (Phase.counting r),
                    moved := s.moved + (if r > 0 then r else 0) }
    | _ => none
  | RateEv.count i =>
    match s.phases[i]? with
    | some (Phase.counting r) =>
      some { s with rate := if r > 0 then update_bytes_transferred r s.rate else s.rate,
                    phases := s.phases.set i Phase.idle }
    | _ => none

/-- Runs a list of steps from a state. -/
def rate_run (RATE_LIMIT : Int) : Shared → List RateEv → Option Shared
  | s, [] => some s
  | s, e :: es =>
    match rate_step RATE_LIMIT s e with
    | none => none
    | some s1 => rate_run RATE_LIMIT s1 es

/-- State of the rate limiter at the start of the window that begins at clock
value `T`, with `C` connection threads outside of any throttled call. -/
def rate_init (T : Int) (C : Nat) : Shared :=
  { rate := ⟨0, T⟩, phases := List.replicate C Phase.idle, moved := 0 }

/-- Observable actions of the server, in program order: the calls of `stat`,
`open`, `rename` (when it succeeded) and `fsync` (with the value of
`total_received` at that moment), the bytes of each `send` on the connection,
`close(client_sock)` and `current_clients--`. -/
inductive Ev where
  | stat (p : Path)
  | opened (p : Path)
  | renamed (src dst : Path)
  | fsync (total : Int)
  | send (bs : List Nat)
  | close_sock
  | dec_clients
  deriving DecidableEq, Repr

/-- State the handler works on: the file system, the rate limiter globals, the
global `current_clients`, and the trace of actions so far. -/
structure Srv where
  fs : FS
  rate : RateState
  current_clients : Int
  log : List Ev
  deriving DecidableEq, Repr

/-- Inputs of one handler run that the handler does not control. -/
structure SrvEnv where
  RATE_LIMIT : Int
  /-- whether `open` of the target succeeds -/
  open_ok : Bool
  /-- whether the final `rename` succeeds -/
  rename_ok : Bool
  /-- one entry per throttled socket call, in order; when they are used up the
  connection is dead and the next socket call fails -/
  ios : List IoStep
  /-- payload bytes that arrive after the header (upload) -/
  stream : List Nat
  deriving DecidableEq, Repr

def Srv.emit (s : Srv) (e : Ev) : Srv := { s with log := s.log ++ [e] }

/-- The label `finalize:` of `client_handler`. -/
def finalize (s : Srv) : Srv :=
  { (s.emit Ev.close_sock).emit Ev.dec_clients with current_clients := s.current_clients - 1 }

/-- Inner loop of the download branch: sends one buffer, possibly in several
`throttled_send` calls; the flag tells whether all of it was sent. -/
def send_block (RATE_LIMIT : Int) :
    List IoStep → List Nat → RateState → List Ev → Bool × List IoStep × RateState × List Ev
  | ios, [], rate, log => (true, ios, rate, log)
  | [], _ :: _, rate, log => (false, [], rate, log)
  | io :: ios, b :: bs, rate, log =>
    let r := throttled_send RATE_LIMIT io rate ((b :: bs).length : Nat)
    if r.2 ≤ 0 then (false, ios, r.1, log)
    else send_block RATE_LIMIT ios ((b :: bs).drop r.2.toNat) r.1
      (log ++ [Ev.send ((b :: bs).take r.2.toNat)])

/-- Outer loop of the download branch, `while ((bytes_read = read(fd, buffer,
BUFFER_SIZE)) > 0)`, over the part `rest` of the file after the file position.
The loop runs at most once per byte of `rest`; `fuel` bounds the iterations. -/
def stream_file (RATE_LIMIT : Int) :
    Nat → List IoStep → List Nat → RateState → List Ev → RateState × List Ev
  | 0, _, _, rate, log => (rate, log)
  | fuel + 1, ios, rest, rate, log =>
    match rest.take BUFFER_SIZE with
    | [] => (rate, log)
    | b :: bs =>
      let r := send_block RATE_LIMIT ios (b :: bs) rate log
      if r.1 then stream_file RATE_LIMIT fuel r.2.1 (rest.drop BUFFER_SIZE) r.2.2.1 r.2.2.2
      else (r.2.2.1, r.2.2.2)

/-- Local state of the upload branch loop. -/
structure Upload where
  /-- content of the `.part` file -/
  data : List Nat
  /-- file position of `fd` -/
  pos : Nat
  total_received : Int
  next_chunk : Int
  /-- bytes still to arrive on the socket -/
  stream : List Nat
  rate : RateState
  log : List Ev
  deriving DecidableEq, Repr

/-- The `for (;;)` loop of the upload branch. -/
def recv_loop (RATE_LIMIT : Int) : List IoStep → Upload → Upload
  | [], u => u
  | io :: ios, u =>
    let r := throttled_recv RATE_LIMIT io u.rate BUFFER_SIZE u.stream.length
    let read_bytes := r.2
    if read_bytes ≤ 0 then { u with rate := r.1 }
    else
      let buf := u.stream.take read_bytes.toNat
      let written := write_result read_bytes io.disk
      if written < read_bytes then
        { u with
          rate := r.1
          stream := u.stream.drop read_bytes.toNat
          data := write_at u.data u.pos (buf.take written.toNat)
          pos := u.pos + written.toNat }
      else
        let total := u.total_received + written
        recv_loop RATE_LIMIT ios
          { data := write_at u.data u.pos buf
            pos := u.pos + buf.length
            total_received := total
            next_chunk := if total ≥ u.next_chunk then u.next_chunk + CHUNK_SIZE else u.next_chunk
            stream := u.stream.drop read_bytes.toNat
            rate := r.1
            log := if total ≥ u.next_chunk then u.log ++ [Ev.fsync total] else u.log }

/-- The download branch (`strcmp(mode, "RECV") == 0`). -/
def handle_recv (env : SrvEnv) (offset : Int) (filepath : Path) (s : Srv) : Srv :=
  let s := s.emit (Ev.stat filepath)
  match s.fs.stat filepath with
  | none => finalize (s.emit (Ev.send (send_lit "ERROR:NOT_FOUND\n" 17)))
  | some content =>
    let filesize : Int := content.length
    let offset := if offset > filesize then filesize else offset
    let s := s.emit (Ev.opened filepath)
    if !env.open_ok then finalize (s.emit (Ev.send (send_lit "ERROR:IO\n" 9)))
    else
      let pos := (lseek_set 0 offset).1
      let msg := snprintf 128 (lit "OK|" ++ fmt_lld (filesize - offset) ++ lit "\n")
      let s := s.emit (Ev.send msg)
      let r := stream_file env.RATE_LIMIT (content.length + 1) env.ios (content.drop pos) s.rate s.log
      finalize { s with rate := r.1, log := r.2 }

/-- The upload branch (`strcmp(mode, "SEND") == 0`). -/
def handle_send (env : SrvEnv) (offset : Int) (filepath : Path) (s : Srv) : Srv :=
  let part_path := snprintf 1024 (filepath ++ lit ".part")
  let s := s.emit (Ev.stat part_path)
  let s := s.emit (Ev.opened part_path)
  if !env.open_ok then finalize (s.emit (Ev.send (send_lit "ERROR:IO\n" 9)))
  else
    let data := (s.fs.stat part_path).getD []
    let s := { s with fs := s.fs.put part_path data }
    let sk := lseek_set 0 offset
    if sk.2 < 0 then finalize (s.emit (Ev.send (send_lit "ERROR:IO\n" 9)))
    else
      let s := s.emit (Ev.send (send_lit "OK\n" 3))
      let total_received := offset
      let next_chunk := (Int.tdiv total_received CHUNK_SIZE + 1) * CHUNK_SIZE
      let u := recv_loop env.RATE_LIMIT env.ios
        { data := data, pos := sk.1, total_received := total_received, next_chunk := next_chunk,
          stream := env.stream, rate := s.rate, log := s.log }
      let s := { s with fs := s.fs.put part_path u.data, rate := u.rate,
                        log := u.log ++ [Ev.fsync u.total_received] }
      if env.rename_ok then
        match s.fs.rename part_path filepath with
        | some fs => finalize { s with fs := fs, log := s.log ++ [Ev.renamed part_path filepath] }
        | none => finalize (s.emit (Ev.send (send_lit "ERROR:IO\n" 9)))
      else finalize (s.emit (Ev.send (send_lit "ERROR:IO\n" 9)))

/-- The function `client_handler`; `received` is what the first `recv` on the
connection delivers (nothing: `recv` returned a value `≤ 0`). -/
def client_handler (env : SrvEnv) (received : List Nat) (s : Srv) : Srv :=
  match received.take 1023 with
  | [] => { (s.emit Ev.close_sock).emit Ev.dec_clients with
            current_clients := s.current_clients - 1 }
  | b :: bs =>
    let header := cstr (b :: bs)
    let mode := strtok header
    let offset_str := mode.bind (fun t => strtok t.2)
    let filepath := offset_str.bind (fun t => strtok t.2)
    match mode, offset_str, filepath with
    | some mode, some offset_str, some filepath =>
      let offset := atoll offset_str.1
      if mode.1 = lit "RECV" then handle_recv env offset filepath.1 s
      else if mode.1 = lit "SEND" then handle_send env offset filepath.1 s
      else finalize (s.emit (Ev.send (send_lit "ERROR:MODE\n" 11)))
    | _, _, _ => finalize (s.emit (Ev.send (send_lit "ERROR:INVALID\n" 14)))

/-- Bytes the server put on the connection, in order. -/
def wire : List Ev → List Nat
  | [] => []
  | Ev.send bs :: es => bs ++ wire es
  | _ :: es => wire es

/-! ## Server: the accept loop of `main` (trab_server.c, lines 276-317) -/

/-- Outcome of starting the worker for an admitted connection. -/
inductive Spawn where
  | started
  | malloc_failed
  | pthread_create_failed
  deriving DecidableEq, Repr

/-- Where the main thread is: waiting in `accept`, or past `current_clients++`
and about to start the worker. -/
inductive Pc where
  | idle
  | admitted
  deriving DecidableEq, Repr

/-- The global `current_clients`, the number of running workers and the main thread. -/
structure Sys where
  current_clients : Int
  workers : Nat
  pc : Pc
  deriving DecidableEq, Repr

/-- Steps of the server: each is one critical section of `client_lock`. -/
inductive Step where
  /-- a connection came out of `accept` and the admission test runs -/
  | arrive
  /-- the main thread starts the worker (or fails to) -/
  | spawn (r : Spawn)
  /-- a worker runs `client_handler` to its end -/
  | worker_exit (env : SrvEnv) (received : List Nat) (fs : FS) (rate : RateState)

/-- One step of the server with the bytes it answers on the new connection;
`none` when the step cannot happen in that state. -/
def sys_step (max_clients : Int) (s : Sys) : Step → Option (Sys × List Nat)
  | Step.arrive =>
    match s.pc with
    | Pc.admitted => none
    | Pc.idle =>
      if s.current_clients ≥ max_clients then some (s, send_lit "ERROR:BUSY\n" 11)
      else some ({ s with current_clients := s.current_clients + 1, pc := Pc.admitted }, [])
  | Step.spawn r =>
    match s.pc with
    | Pc.idle => none
    | Pc.admitted =>
      match r with
      | Spawn.started => some ({ s with workers := s.workers + 1, pc := Pc.idle }, [])
      | Spawn.malloc_failed =>
        some ({ s with current_clients := s.current_clients - 1, pc := Pc.idle }, [])
      | Spawn.pthread_create_failed =>
        some ({ s with current_clients := s.current_clients - 1, pc := Pc.idle }, [])
  | Step.worker_exit env received fs rate =>
    match s.workers with
    | 0 => none
    | w + 1 =>
      let h := client_handler env received
        { fs := fs, rate := rate, current_clients := s.current_clients, log := [] }
      some ({ s with current_clients := h.current_clients, workers := w }, [])

/-- Runs a list of steps from a state. -/
def sys_run (max_clients : Int) : Sys → List Step → Option Sys
  | s, [] => some s
  | s, e :: es =>
    match sys_step max_clients s e with
    | none => none
    | some r => sys_run max_clients r.1 es

/-- State of the server when `main` enters its loop. -/
def sys_init : Sys := { current_clients := 0, workers := 0, pc := Pc.idle }

/-! ## Client (trab_client.c) -/

def DEFAULT_PORT : Nat := 8190

def is_remote_path (path : List Nat) : Bool := path.contains 58

/-- The function `parse_remote_path`: host and remote path on success (return value 0),
`none` for the return value -1. -/
def parse_remote_path (path : List Nat) (host_sz rpath_sz : Nat) :
    Option (List Nat × List Nat) :=
  if !path.contains 58 then none
  else
    let host := path.takeWhile (fun b => b != 58)
    if host.length ≥ host_sz then none
    else
      let file_path := (path.dropWhile (fun b => b != 58)).drop 1
      if file_path.length + 1 > rpath_sz then none else some (host, file_path)

def read_send_part_offset (fs : FS) (part_file : Path) : Int :=
  match fs.stat part_file with
  | none => 0
  | some d =>
    match d.take 63 with
    | [] => 0
    | b :: bs => atoll (cstr (b :: bs))

/-- The function `update_send_part_offset`; `open_ok` tells whether its `open` succeeds. -/
def update_send_part_offset (open_ok : Bool) (fs : FS) (part_file : Path) (offset : Int) : FS :=
  if open_ok then fs.put part_file (snprintf 64 (fmt_lld offset ++ lit "\n")) else fs

def remove_part_file (fs : FS) (part_file : Path) : FS := fs.unlink part_file

/-- Observable actions of the client, in program order: `connect`, the header
sent, the calls of `open`, the payload bytes of each `send`, `fsync` and the
rewriting of the upload marker (each with the cumulative byte count at that
moment), `rename` and `unlink`. -/
inductive CEv where
  | connect
  | header (bs : List Nat)
  | opened (p : Path)
  | sent (bs : List Nat)
  | fsync (total : Int)
  | marker (total : Int)
  | renamed (src dst : Path)
  | unlinked (p : Path)
  deriving DecidableEq, Repr

/-- State the client works on: its file system and the trace of actions. -/
structure Cli where
  fs : FS
  log : List CEv
  deriving DecidableEq, Repr

def Cli.emit (c : Cli) (e : CEv) : Cli := { c with log := c.log ++ [e] }

/-- What the environment decides during one socket call of a streaming loop
and the `write` that may follow it. -/
structure CStep where
  /-- the number of bytes the socket offers to move (`≤ 0`: error or close) -/
  res : Int
  /-- the number of bytes the disk accepts in the following `write` -/
  disk : Int
  deriving DecidableEq, Repr

/-- What the environment decides during one connection attempt. -/
structure Attempt where
  /-- whether `socket`, `inet_pton` and `connect` all succeed -/
  connect_ok : Bool
  /-- whether the `send` of the header succeeds -/
  header_ok : Bool
  /-- bytes delivered by the first `recv` (none: it returned a value `≤ 0`) -/
  response : List Nat
  /-- payload bytes that arrive after the response (download) -/
  stream : List Nat
  /-- one entry per socket call of the streaming loop, in order; when they are
  used up the connection is dead and the next socket call fails -/
  ios : List CStep
  /-- whether `open` of the local file (upload) or of the `.part` file (download) succeeds -/
  open_ok : Bool
  /-- whether the `open` inside `update_send_part_offset` succeeds -/
  marker_ok : Bool
  /-- whether the final `rename` succeeds -/
  rename_ok : Bool
  deriving DecidableEq, Repr

/-- Local state of the download loop. -/
structure Download where
  /-- content of the `.part` file -/
  data : List Nat
  /-- file position of `fd` -/
  pos : Nat
  total_received : Int
  next_chunk : Int
  /-- bytes still to arrive on the socket -/
  stream : List Nat
  log : List CEv
  deriving DecidableEq, Repr

/-- The loop `while (total_received < offset+remaining)` of the download branch;
`limit` is `offset+remaining`. The result of `write` is not looked at. -/
def download_loop (limit : Int) : List CStep → Download → Download
  | [], d => d
  | io :: ios, d =>
    if d.total_received < limit then
      let r := recv_result BUFFER_SIZE d.stream.length io.res
      if r ≤ 0 then d
      else
        let buf := d.stream.take r.toNat
        let written := write_result r io.disk
        let total := d.total_received + r
        download_loop limit ios
          { data := write_at d.data d.pos (buf.take written.toNat)
            pos := d.pos + written.toNat
            total_received := total
            next_chunk := if total ≥ d.next_chunk then d.next_chunk + CHUNK_SIZE else d.next_chunk
            stream := d.stream.drop r.toNat
            log := if total ≥ d.next_chunk then d.log ++ [CEv.fsync total] else d.log }
    else d

/-- Local state of the upload loops. -/
structure UploadC where
  total_sent : Int
  next_chunk : Int
  fs : FS
  log : List CEv
  deriving DecidableEq, Repr

/-- Inner loop `while (sent<rd)` of the upload branch; the flag tells whether the
whole buffer was sent. -/
def send_buf (part_file : Path) (marker_ok : Bool) :
    List CStep → List Nat → UploadC → Bool × List CStep × UploadC
  | ios, [], u => (true, ios, u)
  | [], _ :: _, u => (false, [], u)
  | io :: ios, b :: bs, u =>
    let s := sock_result ((b :: bs).length : Nat) io.res
    if s ≤ 0 then (false, ios, u)
    else
      let total := u.total_sent + s
      let log := u.log ++ [CEv.sent ((b :: bs).take s.toNat)]
      send_buf part_file marker_ok ios ((b :: bs).drop s.toNat)
        (if total ≥ u.next_chunk then
          { total_sent := total
            next_chunk := u.next_chunk + CHUNK_SIZE
            fs := update_send_part_offset marker_ok u.fs part_file total
            log := log ++ [CEv.marker total] }
        else { u with total_sent := total, log := log })

/-- Outer loop `while ((rd=read(fd,buf,BUFFER_SIZE))>0)` of the upload branch over
the part `rest` of the local file after the file position; the flag is
`!erro_envio`. The loop runs at most once per byte of `rest`; `fuel` bounds
the iterations. -/
def upload_loop (part_file : Path) (marker_ok : Bool) :
    Nat → List CStep → List Nat → UploadC → Bool × UploadC
  | 0, _, _, u => (true, u)
  | fuel + 1, ios, rest, u =>
    match rest.take BUFFER_SIZE with
    | [] => (true, u)
    | b :: bs =>
      let r := send_buf part_file marker_ok ios (b :: bs) u
      if r.1 then upload_loop part_file marker_ok fuel r.2.1 (rest.drop BUFFER_SIZE) r.2.2
      else (false, r.2.2)

/-- How one pass through the body of `transfer_file` ends: with `goto try_again`
after a busy answer, or with a return value. -/
inductive Outcome where
  | busy (c : Cli)
  | ret (code : Int) (c : Cli)
  deriving DecidableEq, Repr

/-- The download branch after the handshake (`if (mode_recv)`). -/
def client_recv (a : Attempt) (response : List Nat) (offset : Int) (part_file local_path : Path)
    (c : Cli) : Outcome :=
  if !strncmp_eq response (lit "OK|") then Outcome.ret (-1) c
  else
    let remaining := atoll (response.drop 3)
    let c := c.emit (CEv.opened part_file)
    if !a.open_ok then Outcome.ret (-1) c
    else
      let data := (c.fs.stat part_file).getD []
      let pos := if offset > 0 then data.length else 0
      let total_received := offset
      let next_chunk := (Int.tdiv total_received CHUNK_SIZE + 1) * CHUNK_SIZE
      let d := download_loop (offset + remaining) a.ios
        { data := data, pos := pos, total_received := total_received, next_chunk := next_chunk,
          stream := a.stream, log := c.log }
      let c : Cli := { fs := c.fs.put part_file d.data, log := d.log }
      if d.total_received = offset + remaining then
        if a.rename_ok then
          match c.fs.rename part_file local_path with
          | some fs => Outcome.ret 0 { fs := fs, log := c.log ++ [CEv.renamed part_file local_path] }
          | none => Outcome.ret 0 c
        else Outcome.ret 0 c
      else Outcome.ret 0 c

/-- The upload branch after the handshake (`else`, "SEND mode"); `st_size` is the
size of the local file. -/
def client_send (a : Attempt) (response : List Nat) (offset : Int) (st_size : Int)
    (part_file local_path : Path) (c : Cli) : Outcome :=
  if !strncmp_eq response (lit "OK") then Outcome.ret (-1) c
  else
    let c := c.emit (CEv.opened local_path)
    if !a.open_ok then Outcome.ret (-1) c
    else
      let content := (c.fs.stat local_path).getD []
      let pos := (lseek_set 0 offset).1
      let total_sent := offset
      let next_chunk := (Int.tdiv total_sent CHUNK_SIZE + 1) * CHUNK_SIZE
      let r := upload_loop part_file a.marker_ok (content.length + 1) a.ios (content.drop pos)
        { total_sent := total_sent, next_chunk := next_chunk, fs := c.fs, log := c.log }
      let c : Cli := { fs := r.2.fs, log := r.2.log }
      if r.1 && r.2.total_sent = st_size then
        Outcome.ret 0 { fs := remove_part_file c.fs part_file, log := c.log ++ [CEv.unlinked part_file] }
      else Outcome.ret 0 c

/-- What `transfer_file` has settled when it is about to connect (lines 76-135):
the direction, the remote path, the local path, the name of the `.part` file,
the offset to resume from and, for an upload, the size of the local file. -/
structure Plan where
  mode_recv : Bool
  rpath : List Nat
  local_path : Path
  part_file : Path
  offset : Int
  st_size : Int
  deriving DecidableEq, Repr

/-- Lines 76-135 of `transfer_file`: `none` stands for the early `return -1`. -/
def transfer_plan (src dst : List Nat) (fs : FS) : Option Plan :=
  let src_remote := is_remote_path src
  let dst_remote := is_remote_path dst
  let mode_recv := src_remote && !dst_remote
  let mode_send := !src_remote && dst_remote
  if !mode_recv && !mode_send then none
  else
    match parse_remote_path (if mode_recv then src else dst) 256 1024 with
    | none => none
    | some (_, rpath) =>
      let local_path := if mode_recv then dst else src
      let part_file := snprintf 1024 (local_path ++ lit ".part")
      if mode_recv then
        let offset : Int :=
          match fs.stat part_file with
          | some d => d.length
          | none => 0
        some { mode_recv := true, rpath := rpath, local_path := local_path,
               part_file := part_file, offset := offset, st_size := 0 }
      else
        match fs.stat local_path with
        | none => none
        | some local_file =>
          let st_size : Int := local_file.length
          let send_offset := read_send_part_offset fs part_file
          let send_offset := if send_offset > st_size then st_size else send_offset
          some { mode_recv := false, rpath := rpath, local_path := local_path,
                 part_file := part_file, offset := send_offset, st_size := st_size }

/-- The request line the client sends (lines 160-165). -/
def request_header (p : Plan) : List Nat :=
  snprintf 2048
    ((if p.mode_recv then lit "RECV|" else lit "SEND|") ++ fmt_lld p.offset ++ lit "|" ++ p.rpath)

/-- The body of `transfer_file` from the label `try_again` on, once the retry
test has passed. -/
def transfer_attempt (a : Attempt) (src dst : List Nat) (c : Cli) : Outcome :=
  match transfer_plan src dst c.fs with
  | none => Outcome.ret (-1) c
  | some p =>
    let c := c.emit CEv.connect
    if !a.connect_ok then Outcome.ret (-1) c
    else
      let c := c.emit (CEv.header (request_header p))
      if !a.header_ok then Outcome.ret (-1) c
      else
        match a.response.take 1023 with
        | [] => Outcome.ret (-1) c
        | b :: bs =>
          let response := cstr (b :: bs)
          if strncmp_eq response (lit "ERROR") then
            if strstr response (lit "BUSY") then Outcome.busy c
            else Outcome.ret (-1) c
          else if p.mode_recv then client_recv a response p.offset p.part_file p.local_path c
          else client_send a response p.offset p.st_size p.part_file p.local_path c

def max_retries : Nat := 5

/-- The retry loop of `transfer_file` (label `try_again`), entered with the
given `retry_count`; `net` gives the environment of the attempt made at each
value of `retry_count`. At most `max_retries + 2` passes are made; `fuel`
bounds them. -/
def transfer_file_from (net : Nat → Attempt) (src dst : List Nat) :
    Nat → Nat → Cli → Int × Cli
  | 0, _, c => (-1, c)
  | fuel + 1, retry_count, c =>
    if retry_count > max_retries then (-1, c)
    else
      match transfer_attempt (net retry_count) src dst c with
      | Outcome.busy c1 => transfer_file_from net src dst fuel (retry_count + 1) c1
      | Outcome.ret code c1 => (code, c1)

/-- The function `transfer_file`: its return value and the client state it leaves. -/
def transfer_file (net : Nat → Attempt) (src dst : List Nat) (fs : FS) : Int × Cli :=
  transfer_file_from net src dst (max_retries + 2) 0 { fs := fs, log := [] }

/-- Exit code of the client: the function `main` of trab_client.c. -/
def client_exit_code (net : Nat → Attempt) (src dst : List Nat) (fs : FS) : Int :=
  if (transfer_file net src dst fs).1 < 0 then 1 else 0

/-! ## Observation functions used in the statements -/

/-- First message the server wrote on the connection (the handshake response). -/
def first_send : List Ev → List Nat
  | [] => []
  | Ev.send bs :: _ => bs
  | _ :: es => first_send es

/-- Headers the client sent, one per handshake attempt. -/
def headers : List CEv → List (List Nat)
  | [] => []
  | CEv.header h :: es => h :: headers es
  | _ :: es => headers es

/-- Payload bytes the client put on the connection, in order. -/
def client_wire : List CEv → List Nat
  | [] => []
  | CEv.sent bs :: es => bs ++ client_wire es
  | _ :: es => client_wire es

/-- Fields of a request line: the maximal runs of bytes other than the
delimiter `|`, the second argument being the run read so far. -/
def fields_from : List Nat → List Nat → List (List Nat)
  | [], [] => []
  | [], c :: cs => [c :: cs]
  | b :: bs, cur =>
    if b = 124 then
      match cur with
      | [] => fields_from bs []
      | c :: cs => (c :: cs) :: fields_from bs []
    else fields_from bs (cur ++ [b])

def fields (line : List Nat) : List (List Nat) := fields_from line []

/-! ## Concrete inputs used in the examples below -/

/-- A server environment in which `open` and `rename` succeed and the peer sends nothing. -/
def env0 : SrvEnv :=
  { RATE_LIMIT := 1024, open_ok := true, rename_ok := true, ios := [], stream := [] }

/-- A server state with the given files, one connection admitted, empty trace. -/
def srv0 (fs : FS) : Srv := { fs := fs, rate := ⟨0, 0⟩, current_clients := 1, log := [] }

def ten_bytes : List Nat := [1, 2, 3, 4, 5, 6, 7, 8, 9, 10]

/-- Invariant of the accept loop: the counter equals the number of running workers,
plus one while the main thread is between the increment and the start of the
worker, and never exceeds `max_clients`. -/
def sys_inv (K : Int) (s : Sys) : Prop :=
  s.current_clients = s.workers + (if s.pc = Pc.admitted then 1 else 0) ∧ s.current_clients ≤ K

/-- Whether a handshake response is an error that signals a busy server, as
the client tests it. -/
def is_busy (response : List Nat) : Bool :=
  strncmp_eq (cstr (response.take 1023)) (lit "ERROR") &&
    strstr (cstr (response.take 1023)) (lit "BUSY")

/-- Whether a handshake response is an error that does not signal a busy server. -/
def is_fatal (response : List Nat) : Bool :=
  strncmp_eq (cstr (response.take 1023)) (lit "ERROR") &&
    !strstr (cstr (response.take 1023)) (lit "BUSY")

/-- An attempt on which the server answers `ERROR:BUSY`. -/
def busy_attempt : Attempt :=
  { connect_ok := true, header_ok := true, response := lit "ERROR:BUSY\n", stream := [], ios := [],
    open_ok := true, marker_ok := true, rename_ok := true }

/-- An attempt on which the server answers `ERROR:IO`. -/
def io_error_attempt : Attempt :=
  { connect_ok := true, header_ok := true, response := lit "ERROR:IO\n", stream := [], ios := [],
    open_ok := true, marker_ok := true, rename_ok := true }

/-- Two busy answers, then an error that is not busy. -/
def busy_then_error (k : Nat) : Attempt :=
  if k < 2 then busy_attempt else io_error_attempt

/-- A socket call of the server that moves up to `n` bytes, at clock value 0
with one active connection, followed by a complete `write`. -/
def io_ok (n : Int) : IoStep := { now := 0, clients := 1, res := n, disk := 4096 }

/-- A server environment in which nothing fails and ten socket calls succeed. -/
def env_ok : SrvEnv :=
  { RATE_LIMIT := 1024, open_ok := true, rename_ok := true,
    ios := [io_ok 3, io_ok 4096, io_ok 1, io_ok 1, io_ok 1, io_ok 1, io_ok 1, io_ok 1, io_ok 1,
      io_ok 1],
    stream := [] }

/-- A local file of 130 bytes, none of them zero. -/
def upload_file : List Nat := List.replicate 128 7 ++ [8, 9]

/-- First upload attempt: the server accepts, the first `send` moves 128 bytes,
the second fails (the connection is cut). -/
def cut_attempt : Attempt :=
  { connect_ok := true, header_ok := true, response := lit "OK\n", stream := [],
    ios := [⟨128, 0⟩, ⟨-1, 0⟩], open_ok := true, marker_ok := true, rename_ok := true }

/-- Second upload attempt: the server accepts and every `send` succeeds. -/
def full_attempt : Attempt :=
  { connect_ok := true, header_ok := true, response := lit "OK\n", stream := [],
    ios := [⟨4096, 0⟩, ⟨4096, 0⟩], open_ok := true, marker_ok := true, rename_ok := true }

/-- Server environment of an upload during which the given bytes arrive before the
connection ends; every `recv` and `write` succeeds. -/
def env_upload (arriving : List Nat) : SrvEnv :=
  { RATE_LIMIT := 1024, open_ok := true, rename_ok := true,
    ios := [io_ok 4096, io_ok 4096, io_ok 4096], stream := arriving }

/-- First run of the interrupted upload, client side. -/
def cut_run_client : Int × Cli :=
  transfer_file (fun _ => cut_attempt) (lit "in") (lit "h:f") [(lit "in", upload_file)]

/-- First run of the interrupted upload, server side: the 128 bytes the client sent arrive. -/
def cut_run_server : Srv :=
  client_handler (env_upload (client_wire cut_run_client.2.log)) (lit "SEND|0|f") (srv0 [])

/-- Second run, client side, on the files the first run left. -/
def resumed_run_client : Int × Cli :=
  transfer_file (fun _ => full_attempt) (lit "in") (lit "h:f") cut_run_client.2.fs

/-- Second run, server side, on the files the first run left. -/
def resumed_run_server : Srv :=
  client_handler (env_upload (client_wire resumed_run_client.2.log)) (lit "SEND|128|f")
    (srv0 cut_run_server.fs)

/-- Server environment of an upload in which four bytes arrive and the disk
accepts only one of them. -/
def env_short_write : SrvEnv :=
  { RATE_LIMIT := 1024, open_ok := true, rename_ok := true,
    ios := [{ now := 0, clients := 1, res := 4096, disk := 1 }], stream := [1, 2, 3, 4] }

/-- A download attempt in which the server announces and delivers four bytes and
the disk accepts only one of them. -/
def short_write_attempt : Attempt :=
  { connect_ok := true, header_ok := true, response := lit "OK|4\n", stream := [1, 2, 3, 4],
    ios := [⟨4096, 1⟩], open_ok := true, marker_ok := true, rename_ok := true }

/-! ## Iterations of the streaming loops -/

/-- Whether a cumulative count that goes from `a` to `b` reaches or passes a multiple
of `CHUNK_SIZE` that it had not reached before. -/
def crosses (a b : Int) : Prop := ∃ k : Int, a < k * CHUNK_SIZE ∧ k * CHUNK_SIZE ≤ b

/-- One iteration of the client's download loop: the state after it, or `none`
when the loop ends instead (the loop condition is false, or `recv` returned a
value `≤ 0`). -/
def download_step (limit : Int) (io : CStep) (d : Download) : Option Download :=
  if d.total_received < limit then
    let r := recv_result BUFFER_SIZE d.stream.length io.res
    if r ≤ 0 then none
    else
      let buf := d.stream.take r.toNat
      let written := write_result r io.disk
      let total := d.total_received + r
      some
        { data := write_at d.data d.pos (buf.take written.toNat)
          pos := d.pos + written.toNat
          total_received := total
          next_chunk := if total ≥ d.next_chunk then d.next_chunk + CHUNK_SIZE else d.next_chunk
          stream := d.stream.drop r.toNat
          log := if total ≥ d.next_chunk then d.log ++ [CEv.fsync total] else d.log }
  else none

/-- States after the successive iterations of the client's download loop. -/
def download_iterations (limit : Int) : List CStep → Download → List Download
  | [], _ => []
  | io :: ios, d =>
    match download_step limit io d with
    | none => []
    | some d1 => d1 :: download_iterations limit ios d1

/-- One iteration of the server's upload-receiving loop: the state after it and
whether the loop goes on (it does not after a `recv` result `≤ 0` or a short
`write`, which leave the byte count as it was). -/
def recv_step (RATE_LIMIT : Int) (io : IoStep) (u : Upload) : Upload × Bool :=
  let r := throttled_recv RATE_LIMIT io u.rate BUFFER_SIZE u.stream.length
  let read_bytes := r.2
  if read_bytes ≤ 0 then ({ u with rate := r.1 }, false)
  else
    let buf := u.stream.take read_bytes.toNat
    let written := write_result read_bytes io.disk
    if written < read_bytes then
      ({ u with
          rate := r.1
          stream := u.stream.drop read_bytes.toNat
          data := write_at u.data u.pos (buf.take written.toNat)
          pos := u.pos + written.toNat }, false)
    else
      let total := u.total_received + written
      ({ data := write_at u.data u.pos buf
         pos := u.pos + buf.length
         total_received := total
         next_chunk := if total ≥ u.next_chunk then u.next_chunk + CHUNK_SIZE else u.next_chunk
         stream := u.stream.drop read_bytes.toNat
         rate := r.1
         log := if total ≥ u.next_chunk then u.log ++ [Ev.fsync total] else u.log }, true)

/-- States after the successive iterations of the server's upload-receiving loop,
the one that leaves the loop included. -/
def recv_iterations (RATE_LIMIT : Int) : List IoStep → Upload → List Upload
  | [], _ => []
  | io :: ios, u =>
    if (recv_step RATE_LIMIT io u).2 then
      (recv_step RATE_LIMIT io u).1 :: recv_iterations RATE_LIMIT ios (recv_step RATE_LIMIT io u).1
    else [(recv_step RATE_LIMIT io u).1]

/-- One iteration of the client's inner upload loop on the part of the buffer not
yet sent: what is then left of the buffer and the state, or `none` when `send`
returned a value `≤ 0` and the loop ends. -/
def send_step (part_file : Path) (marker_ok : Bool) (io : CStep) (buf : List Nat) (u : UploadC) :
    Option (List Nat × UploadC) :=
  let s := sock_result (buf.length : Nat) io.res
  if s ≤ 0 then none
  else
    let total := u.total_sent + s
    let log := u.log ++ [CEv.sent (buf.take s.toNat)]
    some (buf.drop s.toNat,
      if total ≥ u.next_chunk then
        { total_sent := total
          next_chunk := u.next_chunk + CHUNK_SIZE
          fs := update_send_part_offset marker_ok u.fs part_file total
          log := log ++ [CEv.marker total] }
      else { u with total_sent := total, log := log })

/-- States after the successive iterations of the client's inner upload loop on one buffer. -/
def send_buf_iterations (part_file : Path) (marker_ok : Bool) :
    List CStep → List Nat → UploadC → List UploadC
  | _, [], _ => []
  | [], _ :: _, _ => []
  | io :: ios, b :: bs, u =>
    match send_step part_file marker_ok io (b :: bs) u with
    | none => []
    | some r => r.2 :: send_buf_iterations part_file marker_ok ios r.1 r.2

/-- States after the successive iterations of the client's inner upload loop, over
all the buffers that the outer loop reads. -/
def upload_iterations (part_file : Path) (marker_ok : Bool) :
    Nat → List CStep → List Nat → UploadC → List UploadC
  | 0, _, _, _ => []
  | fuel + 1, ios, rest, u =>
    match rest.take BUFFER_SIZE with
    | [] => []
    | b :: bs =>
      let r := send_buf part_file marker_ok ios (b :: bs) u
      send_buf_iterations part_file marker_ok ios (b :: bs) u ++
        (if r.1 then upload_iterations part_file marker_ok fuel r.2.1 (rest.drop BUFFER_SIZE) r.2.2
         else [])

/-- What the three loops keep true of the byte count and `next_chunk`: the
threshold is a multiple of `CHUNK_SIZE` and not above the first multiple the count
has not reached. -/
def chunk_inv (total next_chunk : Int) : Prop :=
  next_chunk % 128 = 0 ∧ next_chunk ≤ (total / 128 + 1) * 128


/-- A download loop state with 100 bytes received so far, the threshold at 128 and 60
bytes still to arrive. -/
def checkpoint_start : Download :=
  { data := [], pos := 0, total_received := 100, next_chunk := 128,
    stream := List.replicate 60 1, log := [] }

/-- Two `recv` calls that deliver 50 and then 5 bytes, each followed by a complete `write`. -/
def checkpoint_steps : List CStep := [⟨50, 4096⟩, ⟨5, 4096⟩]

/-- The state after the first of these iterations: 150 bytes, one `fsync`. -/
def checkpoint_first : Download :=
  { data := List.replicate 50 1, pos := 50, total_received := 150, next_chunk := 256,
    stream := List.replicate 10 1, log := [CEv.fsync 150] }

/-- The state after the second of these iterations: 155 bytes, no further `fsync`. -/
def checkpoint_second : Download :=
  { data := List.replicate 55 1, pos := 55, total_received := 155, next_chunk := 256,
    stream := List.replicate 5 1, log := [CEv.fsync 150] }

/-- Two calls of two connections, step by step in turn: both connections poll,
both cap a full-buffer request, both send, both update the counter. -/
def interleaved_steps : List RateEv :=
  [RateEv.poll 0 0 1, RateEv.poll 1 0 1, RateEv.cap 0 0 1 4096, RateEv.cap 1 0 1 4096,
   RateEv.move 0 4096 none, RateEv.move 1 4096 none, RateEv.count 0, RateEv.count 1]

/-- The state after `interleaved_steps` with RATE_LIMIT = 1024. -/
def interleaved_final : Shared :=
  { rate := ⟨2048, 0⟩, phases := [Phase.idle, Phase.idle], moved := 2048 }

/-! # Properties -/

/-! ## Rate limiter: basic facts -/

theorem get_available_bytes_pos (R cc now : Int) (st : RateState) :
    1 ≤ (get_available_bytes R cc now st).2 := by
  simp only [get_available_bytes]
  split <;> omega

theorem wait_for_available_bytes_succ (R cc now : Int) (fuel : Nat) (st : RateState) :
    wait_for_available_bytes R cc now (fuel + 1) st = some (get_available_bytes R cc now st).1 := by
  have h := get_available_bytes_pos R cc now st
  simp only [wait_for_available_bytes]
  rw [if_pos (by omega)]

theorem get_available_bytes_idem (R cc now : Int) (st : RateState) :
    get_available_bytes R cc now (get_available_bytes R cc now st).1
      = get_available_bytes R cc now st := by
  by_cases h : now = st.last_time
  · simp [get_available_bytes, h]
  · simp [get_available_bytes, h]

/-- Closed form of `throttled_send`: the window is refreshed, the request is
capped to the share, and the bytes moved are added to the counter. -/
theorem throttled_send_eq (R : Int) (io : IoStep) (st : RateState) (length : Int) :
    throttled_send R io st length =
      let g := get_available_bytes R io.clients io.now st
      let s := sock_result (if length > g.2 then g.2 else length) io.res
      (if s > 0 then update_bytes_transferred s g.1 else g.1, s) := by
  simp only [throttled_send, wait_for_available_bytes_succ, get_available_bytes_idem]

theorem throttled_recv_eq (R : Int) (io : IoStep) (st : RateState) (length : Int) (pending : Nat) :
    throttled_recv R io st length pending =
      let g := get_available_bytes R io.clients io.now st
      let s := recv_result (if length > g.2 then g.2 else length) pending io.res
      (if s > 0 then update_bytes_transferred s g.1 else g.1, s) := by
  simp only [throttled_recv, wait_for_available_bytes_succ, get_available_bytes_idem]

theorem sock_result_le (length res : Int) (h : 0 < sock_result length res) :
    sock_result length res ≤ length := by
  unfold sock_result at *
  split at h <;> omega

theorem sock_result_pos {length res : Int} (hl : 0 < length) (hr : 0 < res) :
    0 < sock_result length res := by
  unfold sock_result
  rw [if_neg (by omega)]; omega

theorem recv_result_le (length : Int) (pending : Nat) (res : Int)
    (h : 0 < recv_result length pending res) :
    recv_result length pending res ≤ length ∧ recv_result length pending res ≤ pending := by
  unfold recv_result at *
  split at h
  · omega
  · have := sock_result_le _ _ h
    omega

theorem recv_result_pos {length : Int} {pending : Nat} {res : Int} (hl : 0 < length)
    (hp : 0 < pending) (hr : 0 < res) : 0 < recv_result length pending res := by
  unfold recv_result
  rw [if_neg (by omega)]
  exact sock_result_pos (by omega) hr

theorem dec_digits_length (fuel : Nat) :
    ∀ (n : Nat) (acc : List Nat) (k : Nat), n < 10 ^ (k + 1) →
      (dec_digits fuel n acc).length ≤ k + 1 + acc.length := by
  induction fuel with
  | zero => intro n acc k _; simp [dec_digits]
  | succ fuel ih =>
    intro n acc k h
    by_cases h10 : n < 10
    · simp only [dec_digits, h10, if_true, List.length_cons]; omega
    · simp only [dec_digits, h10, if_false]
      cases k with
      | zero => simp at h; omega
      | succ k =>
        have := ih (n / 10) ((48 + n % 10) :: acc) k (by
          rw [pow_succ] at h
          exact Nat.div_lt_of_lt_mul (by rw [Nat.mul_comm]; exact h))
        simp only [List.length_cons] at this
        omega

theorem fmt_lld_nonneg (n : Nat) : fmt_lld (n : Int) = dec_digits (n + 1) n [] := by
  simp [fmt_lld]

theorem fmt_lld_length (n : Nat) (h : (n : Int) ≤ LLONG_MAX) : (fmt_lld (n : Int)).length ≤ 19 := by
  rw [fmt_lld_nonneg]
  have := dec_digits_length (n + 1) n [] 18 (by
    have : n ≤ 9223372036854775807 := by unfold LLONG_MAX at h; omega
    norm_num; omega)
  simpa using this

theorem fields_from_run (s : List Nat) :
    ∀ cur : List Nat, cur ≠ [] →
      fields_from s cur = (cur ++ s.takeWhile (fun b => b != 124))
        :: fields_from ((s.dropWhile (fun b => b != 124)).drop 1) [] := by
  induction s with
  | nil =>
    intro cur h
    cases cur with
    | nil => exact absurd rfl h
    | cons c cs => simp [fields_from]
  | cons b bs ih =>
    intro cur h
    by_cases hb : b = 124
    · subst hb
      cases cur with
      | nil => exact absurd rfl h
      | cons c cs => simp [fields_from]
    · have e : fields_from (b :: bs) cur = fields_from bs (cur ++ [b]) := by
        simp [fields_from, hb]
      rw [e, ih (cur ++ [b]) (by simp)]
      simp [hb]

theorem fields_from_skip (s : List Nat) :
    fields_from s [] = fields_from (s.dropWhile (fun b => b == 124)) [] := by
  induction s with
  | nil => rfl
  | cons b bs ih =>
    by_cases hb : b = 124
    · subst hb; simp [fields_from, ih]
    · simp [hb]

/-- The token scanner `strtok` yields the fields of the line one by one. -/
theorem fields_strtok (s : List Nat) :
    fields s = match strtok s with
      | none => []
      | some (t, r) => t :: fields r := by
  unfold fields strtok
  rw [fields_from_skip]
  have hhead : ∀ b ∈ (s.dropWhile (fun b => b == 124)).head?, b ≠ 124 := by
    intro b hb
    have := List.head?_dropWhile_not (fun b => b == 124) s
    rw [Option.mem_def] at hb
    simp [hb] at this
    exact this
  generalize s.dropWhile (fun b => b == 124) = t at hhead
  cases t with
  | nil => rfl
  | cons b bs =>
    have hb := hhead b (by simp)
    simp only [fields_from, hb, if_false, List.nil_append]
    rw [fields_from_run bs [b] (by simp)]
    simp [hb]

/-! ## Server: how `client_handler` dispatches -/

/-- The handler reads the request as the first three fields of the line and
dispatches on the first. -/
theorem client_handler_fields (env : SrvEnv) (received : List Nat) (s : Srv)
    (hrecv : received ≠ []) :
    client_handler env received s =
      match fields (cstr (received.take 1023)) with
      | m :: o :: p :: _ =>
        if m = lit "RECV" then handle_recv env (atoll o) p s
        else if m = lit "SEND" then handle_send env (atoll o) p s
        else finalize (s.emit (Ev.send (send_lit "ERROR:MODE\n" 11)))
      | _ => finalize (s.emit (Ev.send (send_lit "ERROR:INVALID\n" 14))) := by
  unfold client_handler
  cases hr : received.take 1023 with
  | nil =>
    cases received with
    | nil => exact absurd rfl hrecv
    | cons b bs => simp at hr
  | cons b bs =>
    simp only
    generalize cstr (b :: bs) = line
    rw [fields_strtok line]
    cases h1 : strtok line with
    | none => simp
    | some t1 =>
      obtain ⟨m, r1⟩ := t1
      simp only [Option.bind_some]
      rw [fields_strtok r1]
      cases h2 : strtok r1 with
      | none => simp [h2]
      | some t2 =>
        obtain ⟨o, r2⟩ := t2
        simp only [Option.bind_some]
        rw [fields_strtok r2]
        cases h3 : strtok r2 with
        | none => simp [h2, h3]
        | some t3 =>
          obtain ⟨p, r3⟩ := t3
          simp [h2, h3]

/-! ## Traces -/

theorem wire_append (a b : List Ev) : wire (a ++ b) = wire a ++ wire b := by
  induction a with
  | nil => rfl
  | cons e es ih => cases e <;> simp [wire, ih]

theorem throttled_send_le (R : Int) (io : IoStep) (st : RateState) (n : Nat)
    (h : 0 < (throttled_send R io st n).2) : (throttled_send R io st n).2 ≤ n := by
  rw [throttled_send_eq] at h ⊢
  simp only at h ⊢
  have hL : (if (n : Int) > (get_available_bytes R io.clients io.now st).2
      then (get_available_bytes R io.clients io.now st).2 else (n : Int)) ≤ n := by
    split <;> omega
  have := sock_result_le _ _ h
  omega

theorem throttled_send_pos (R : Int) (io : IoStep) (st : RateState) (n : Nat) (hn : 0 < n)
    (hres : 0 < io.res) : 0 < (throttled_send R io st n).2 := by
  rw [throttled_send_eq]
  simp only
  have hp := get_available_bytes_pos R io.clients io.now st
  apply sock_result_pos _ hres
  split <;> omega

theorem send_block_cons (R : Int) (io : IoStep) (ios : List IoStep) (b : Nat) (bs : List Nat)
    (rate : RateState) (log : List Ev) :
    send_block R (io :: ios) (b :: bs) rate log =
      if (throttled_send R io rate ((b :: bs).length : Nat)).2 ≤ 0 then
        (false, ios, (throttled_send R io rate ((b :: bs).length : Nat)).1, log)
      else send_block R ios
        ((b :: bs).drop (throttled_send R io rate ((b :: bs).length : Nat)).2.toNat)
        (throttled_send R io rate ((b :: bs).length : Nat)).1
        (log ++ [Ev.send ((b :: bs).take (throttled_send R io rate ((b :: bs).length : Nat)).2.toNat)]) :=
  rfl

/-- Events added by the inner download loop are sends of consecutive pieces of
the buffer; when the loop reports success the whole buffer went out. -/
theorem send_block_log (R : Int) (ios : List IoStep) :
    ∀ (buf : List Nat) (rate : RateState) (log : List Ev),
      ∃ new k, (send_block R ios buf rate log).2.2.2 = log ++ new ∧
        (∀ e ∈ new, ∃ bs, e = Ev.send bs) ∧ wire new = buf.take k ∧
        ((send_block R ios buf rate log).1 = true → wire new = buf) := by
  induction ios with
  | nil =>
    intro buf rate log
    cases buf with
    | nil => exact ⟨[], 0, by simp [send_block], by simp, by simp [wire], by simp [wire]⟩
    | cons b bs => exact ⟨[], 0, by simp [send_block], by simp, by simp [wire], by simp [send_block]⟩
  | cons io ios ih =>
    intro buf rate log
    cases buf with
    | nil => exact ⟨[], 0, by simp [send_block], by simp, by simp [wire], by simp [wire]⟩
    | cons b bs =>
      by_cases hs : (throttled_send R io rate ((b :: bs).length : Nat)).2 ≤ 0
      · rw [send_block_cons, if_pos hs]
        exact ⟨[], 0, by simp, by simp, by simp [wire], by simp⟩
      · rw [send_block_cons, if_neg hs]
        generalize hsv : (throttled_send R io rate ((b :: bs).length : Nat)).2 = sv at hs
        obtain ⟨new, k, h1, h2, h3, h4⟩ := ih ((b :: bs).drop sv.toNat)
          (throttled_send R io rate ((b :: bs).length : Nat)).1
          (log ++ [Ev.send ((b :: bs).take sv.toNat)])
        refine ⟨Ev.send ((b :: bs).take sv.toNat) :: new, sv.toNat + k, ?_, ?_, ?_, ?_⟩
        · rw [h1]; simp
        · intro e he
          simp only [List.mem_cons] at he
          rcases he with he | he
          · exact ⟨_, he⟩
          · exact h2 e he
        · simp only [wire, h3]
          rw [List.take_add]
        · intro hok
          simp only [wire, h4 hok]
          exact List.take_append_drop _ _

/-- Events added by the outer download loop are sends whose bytes, put together,
are an initial part of what was left of the file. -/
theorem stream_file_log (R : Int) (fuel : Nat) :
    ∀ (ios : List IoStep) (rest : List Nat) (rate : RateState) (log : List Ev),
      ∃ new k, (stream_file R fuel ios rest rate log).2 = log ++ new ∧
        (∀ e ∈ new, ∃ bs, e = Ev.send bs) ∧ wire new = rest.take k := by
  induction fuel with
  | zero => intro ios rest rate log; exact ⟨[], 0, by simp [stream_file], by simp, by simp [wire]⟩
  | succ fuel ih =>
    intro ios rest rate log
    simp only [stream_file]
    split
    · exact ⟨[], 0, by simp, by simp, by simp [wire]⟩
    · rename_i b bs hbuf
      obtain ⟨new1, k1, h1, h2, h3, h4⟩ := send_block_log R ios (b :: bs) rate log
      split
      · rename_i hok
        obtain ⟨new2, k2, g1, g2, g3⟩ := ih (send_block R ios (b :: bs) rate log).2.1
          (rest.drop BUFFER_SIZE) (send_block R ios (b :: bs) rate log).2.2.1
          (send_block R ios (b :: bs) rate log).2.2.2
        refine ⟨new1 ++ new2, BUFFER_SIZE + k2, ?_, ?_, ?_⟩
        · rw [g1, h1]; simp
        · intro e he
          rcases List.mem_append.mp he with he | he
          · exact h2 e he
          · exact g2 e he
        · rw [wire_append, h4 hok, g3, ← hbuf, List.take_add]
      · refine ⟨new1, min k1 BUFFER_SIZE, h1, h2, ?_⟩
        rw [h3, ← hbuf, List.take_take]

/-- More fuel than bytes left does not change what the outer download loop does. -/
theorem stream_file_fuel (R : Int) (fuel : Nat) :
    ∀ (ios : List IoStep) (rest : List Nat) (rate : RateState) (log : List Ev),
      rest.length ≤ fuel →
      stream_file R (fuel + 1) ios rest rate log = stream_file R fuel ios rest rate log := by
  induction fuel with
  | zero =>
    intro ios rest rate log h
    have : rest = [] := List.length_eq_zero.mp (by omega)
    subst this
    simp [stream_file]
  | succ fuel ih =>
    intro ios rest rate log h
    rw [stream_file.eq_def R (fuel + 1 + 1), stream_file.eq_def R (fuel + 1)]
    simp only
    split
    · rfl
    · rename_i b bs hbuf
      have hlen : (rest.drop BUFFER_SIZE).length ≤ fuel := by
        have : rest ≠ [] := by intro h0; subst h0; simp at hbuf
        have : 0 < rest.length := List.length_pos.mpr this
        simp only [List.length_drop, BUFFER_SIZE]
        omega
      rw [ih _ _ _ _ hlen]

/-- Events added by the upload-receiving loop are checkpoints only. -/
theorem recv_loop_log (R : Int) (ios : List IoStep) :
    ∀ u : Upload, ∃ new, (recv_loop R ios u).log = u.log ++ new ∧
      ∀ e ∈ new, ∃ t, e = Ev.fsync t := by
  induction ios with
  | nil => intro u; exact ⟨[], by simp [recv_loop], by simp⟩
  | cons io ios ih =>
    intro u
    have key : ∀ u' : Upload, (∃ pre, u'.log = u.log ++ pre ∧ ∀ e ∈ pre, ∃ t, e = Ev.fsync t) →
        ∃ new, (recv_loop R ios u').log = u.log ++ new ∧ ∀ e ∈ new, ∃ t, e = Ev.fsync t := by
      rintro u' ⟨pre, hp1, hp2⟩
      obtain ⟨new, h1, h2⟩ := ih u'
      refine ⟨pre ++ new, by rw [h1, hp1]; simp, ?_⟩
      intro e he
      rcases List.mem_append.mp he with he | he
      · exact hp2 e he
      · exact h2 e he
    simp only [recv_loop]
    split
    · exact ⟨[], by simp, by simp⟩
    · split
      · exact ⟨[], by simp, by simp⟩
      · apply key
        simp only
        split
        · exact ⟨[_], rfl, by simp⟩
        · exact ⟨[], by simp, by simp⟩

/-! ## Server: shape of a handler run -/

/-- Trace and counter after the download branch: some file and socket actions,
then the connection is closed and the counter decremented, once each. -/
theorem handle_recv_shape (env : SrvEnv) (offset : Int) (filepath : Path) (s : Srv) :
    ∃ mid, (handle_recv env offset filepath s).log
        = s.log ++ mid ++ [Ev.close_sock, Ev.dec_clients] ∧
      (∀ e ∈ mid, e ≠ Ev.close_sock ∧ e ≠ Ev.dec_clients) ∧
      (handle_recv env offset filepath s).current_clients = s.current_clients - 1 := by
  unfold handle_recv
  simp only [Srv.emit, finalize]
  split
  · exact ⟨[Ev.stat filepath, Ev.send (send_lit "ERROR:NOT_FOUND\n" 17)], by simp, by simp, rfl⟩
  · rename_i content hstat
    split
    · exact ⟨[Ev.stat filepath, Ev.opened filepath, Ev.send (send_lit "ERROR:IO\n" 9)],
        by simp, by simp, rfl⟩
    · generalize hmsg : snprintf 128 _ = msg
      obtain ⟨new, k, h1, h2, _⟩ := stream_file_log env.RATE_LIMIT (content.length + 1) env.ios
        (content.drop (lseek_set 0 (if offset > (content.length : Int) then (content.length : Int)
          else offset)).1) s.rate (s.log ++ [Ev.stat filepath] ++ [Ev.opened filepath] ++ [Ev.send msg])
      refine ⟨[Ev.stat filepath, Ev.opened filepath, Ev.send msg] ++ new, ?_, ?_, rfl⟩
      · simp only [h1]; simp
      · intro e he
        simp only [List.cons_append, List.nil_append, List.mem_cons] at he
        rcases he with he | he | he | he
        · subst he; simp
        · subst he; simp
        · subst he; simp
        · obtain ⟨bs, hbs⟩ := h2 e he
          subst hbs; simp

/-- Trace and counter after the upload branch. -/
theorem handle_send_shape (env : SrvEnv) (offset : Int) (filepath : Path) (s : Srv) :
    ∃ mid, (handle_send env offset filepath s).log
        = s.log ++ mid ++ [Ev.close_sock, Ev.dec_clients] ∧
      (∀ e ∈ mid, e ≠ Ev.close_sock ∧ e ≠ Ev.dec_clients) ∧
      (handle_send env offset filepath s).current_clients = s.current_clients - 1 := by
  unfold handle_send
  simp only [Srv.emit, finalize]
  generalize snprintf 1024 (filepath ++ lit ".part") = part_path
  have herr : ∀ e ∈ [Ev.stat part_path, Ev.opened part_path, Ev.send (send_lit "ERROR:IO\n" 9)],
      e ≠ Ev.close_sock ∧ e ≠ Ev.dec_clients := by simp
  split
  · exact ⟨[Ev.stat part_path, Ev.opened part_path, Ev.send (send_lit "ERROR:IO\n" 9)],
      by simp, herr, rfl⟩
  · split
    · exact ⟨[Ev.stat part_path, Ev.opened part_path, Ev.send (send_lit "ERROR:IO\n" 9)],
        by simp, herr, rfl⟩
    · generalize hu : recv_loop env.RATE_LIMIT env.ios _ = u
      obtain ⟨new, h1, h2⟩ := recv_loop_log env.RATE_LIMIT env.ios
        { data := (s.fs.stat part_path).getD []
          pos := (lseek_set 0 offset).1
          total_received := offset
          next_chunk := (Int.tdiv offset CHUNK_SIZE + 1) * CHUNK_SIZE
          stream := env.stream
          rate := s.rate
          log := s.log ++ [Ev.stat part_path] ++ [Ev.opened part_path] ++
            [Ev.send (send_lit "OK\n" 3)] }
      rw [hu] at h1
      simp only at h1
      have hq : ∀ (x : Ev), x ≠ Ev.close_sock → x ≠ Ev.dec_clients →
          ∀ e ∈ [Ev.stat part_path, Ev.opened part_path, Ev.send (send_lit "OK\n" 3)] ++ new ++
            [Ev.fsync u.total_received, x], e ≠ Ev.close_sock ∧ e ≠ Ev.dec_clients := by
        intro x hx1 hx2 e he
        simp only [List.cons_append, List.nil_append, List.mem_cons, List.mem_append,
          List.mem_singleton, List.not_mem_nil, or_false] at he
        rcases he with he | he | he | he | he | he
        · subst he; simp
        · subst he; simp
        · subst he; simp
        · obtain ⟨t, ht⟩ := h2 e he
          subst ht; simp
        · subst he; simp
        · subst he; exact ⟨hx1, hx2⟩
      split
      · split
        · exact ⟨_, by simp only [h1]; simp, hq (Ev.renamed part_path filepath) (by simp) (by simp), rfl⟩
        · exact ⟨_, by simp only [h1]; simp, hq (Ev.send (send_lit "ERROR:IO\n" 9)) (by simp) (by simp), rfl⟩
      · exact ⟨_, by simp only [h1]; simp, hq (Ev.send (send_lit "ERROR:IO\n" 9)) (by simp) (by simp), rfl⟩

/-- Every run of `client_handler` closes the connection and then decrements
`current_clients`, as its last two actions and nowhere before. -/
theorem client_handler_shape (env : SrvEnv) (received : List Nat) (s : Srv) :
    ∃ mid, (client_handler env received s).log
        = s.log ++ mid ++ [Ev.close_sock, Ev.dec_clients] ∧
      (∀ e ∈ mid, e ≠ Ev.close_sock ∧ e ≠ Ev.dec_clients) ∧
      (client_handler env received s).current_clients = s.current_clients - 1 := by
  by_cases hrecv : received = []
  · subst hrecv
    exact ⟨[], by simp [client_handler, Srv.emit], by simp, rfl⟩
  · rw [client_handler_fields env received s hrecv]
    split
    · split
      · exact handle_recv_shape _ _ _ _
      · split
        · exact handle_send_shape _ _ _ _
        · exact ⟨[Ev.send (send_lit "ERROR:MODE\n" 11)], by simp [finalize, Srv.emit], by simp, rfl⟩
    · exact ⟨[Ev.send (send_lit "ERROR:INVALID\n" 14)], by simp [finalize, Srv.emit], by simp, rfl⟩

/-! ## Download branch of the server -/

/-- The download branch when the file exists, `open` succeeds and the decoded offset
is not negative: the answer carries `size - min offset size`, and what follows
on the connection is an initial part of the file from position `min offset size`. -/
theorem handle_recv_ok (env : SrvEnv) (o : Int) (p : Path) (s : Srv) (content : List Nat)
    (hstat : s.fs.stat p = some content) (hopen : env.open_ok = true) (ho : 0 ≤ o)
    (hsize : (content.length : Int) ≤ LLONG_MAX) :
    ∃ new k, (handle_recv env o p s).log
        = s.log ++ [Ev.stat p, Ev.opened p,
            Ev.send (lit "OK|" ++ fmt_lld ((content.length : Int) - min o content.length)
              ++ lit "\n")] ++ new ++ [Ev.close_sock, Ev.dec_clients] ∧
      (∀ e ∈ new, ∃ bs, e = Ev.send bs) ∧
      wire new = (content.drop (min o content.length).toNat).take k ∧
      (handle_recv env o p s).fs = s.fs ∧
      (stream_file env.RATE_LIMIT (content.length + 1) env.ios
        (content.drop (min o content.length).toNat) s.rate
        (s.log ++ [Ev.stat p, Ev.opened p,
            Ev.send (lit "OK|" ++ fmt_lld ((content.length : Int) - min o content.length)
              ++ lit "\n")])).2 = s.log ++ [Ev.stat p, Ev.opened p,
            Ev.send (lit "OK|" ++ fmt_lld ((content.length : Int) - min o content.length)
              ++ lit "\n")] ++ new := by
  have hclamp : (if o > (content.length : Int) then (content.length : Int) else o)
      = min o content.length := by
    split <;> omega
  have hpos : (lseek_set 0 (min o (content.length : Int))).1 = (min o (content.length : Int)).toNat := by
    simp only [lseek_set]
    rw [if_neg (by omega)]
  obtain ⟨r, hr⟩ : ∃ r : Nat, (content.length : Int) - min o content.length = r :=
    ⟨((content.length : Int) - min o content.length).toNat, by omega⟩
  have hmsg : snprintf 128 (lit "OK|" ++ fmt_lld ((content.length : Int) - min o content.length)
      ++ lit "\n") = lit "OK|" ++ fmt_lld ((content.length : Int) - min o content.length)
      ++ lit "\n" := by
    unfold snprintf
    apply List.take_of_length_le
    rw [hr]
    have := fmt_lld_length r (by omega)
    simp only [List.length_append]
    have h1 : (lit "OK|").length = 3 := by decide
    have h2 : (lit "\n").length = 1 := by decide
    omega
  unfold handle_recv
  simp only [Srv.emit, finalize, hstat, hopen, hclamp, hpos, hmsg, Bool.not_true,
    Bool.false_eq_true, if_false]
  obtain ⟨new, k, h1, h2, h3⟩ := stream_file_log env.RATE_LIMIT (content.length + 1) env.ios
    (content.drop (min o (content.length : Int)).toNat) s.rate
    (s.log ++ [Ev.stat p] ++ [Ev.opened p] ++
      [Ev.send (lit "OK|" ++ fmt_lld ((content.length : Int) - min o content.length) ++ lit "\n")])
  refine ⟨new, k, ?_, h2, h3, trivial, ?_⟩
  · simp only [h1]; simp
  · simpa using h1

/-! ## Server: an uninterrupted download -/

/-- When every `send` moves at least one byte and there are enough of them, the
inner loop sends the whole buffer. -/
theorem send_block_complete (R : Int) (ios : List IoStep) :
    ∀ (buf : List Nat) (rate : RateState) (log : List Ev),
      (∀ io ∈ ios, 0 < io.res) → buf.length ≤ ios.length →
      (send_block R ios buf rate log).1 = true ∧
      (∀ io ∈ (send_block R ios buf rate log).2.1, 0 < io.res) ∧
      ios.length ≤ (send_block R ios buf rate log).2.1.length + buf.length := by
  induction ios with
  | nil =>
    intro buf rate log _ hlen
    have : buf = [] := List.length_eq_zero.mp (by simpa using hlen)
    subst this
    simp [send_block]
  | cons io ios ih =>
    intro buf rate log hio hlen
    cases buf with
    | nil => simpa [send_block] using hio
    | cons b bs =>
      have hpos := throttled_send_pos R io rate (b :: bs).length (by simp)
        (hio io (List.mem_cons_self _ _))
      have hle := throttled_send_le R io rate (b :: bs).length hpos
      rw [send_block_cons, if_neg (by omega)]
      generalize (throttled_send R io rate ((b :: bs).length : Nat)).2 = sv at hpos hle
      generalize (throttled_send R io rate ((b :: bs).length : Nat)).1 = rate1
      have h := ih ((b :: bs).drop sv.toNat) rate1 (log ++ [Ev.send ((b :: bs).take sv.toNat)])
        (fun io' h' => hio io' (List.mem_cons_of_mem _ h'))
        (by simp only [List.length_drop, List.length_cons] at hlen ⊢; omega)
      obtain ⟨h1, h2, h3⟩ := h
      refine ⟨h1, h2, ?_⟩
      simp only [List.length_drop, List.length_cons] at h3 hle ⊢
      omega

/-- When every `send` moves at least one byte and there are enough of them, the
download loop sends everything that was left of the file. -/
theorem stream_file_complete (R : Int) (fuel : Nat) :
    ∀ (ios : List IoStep) (rest : List Nat) (rate : RateState) (log : List Ev),
      (∀ io ∈ ios, 0 < io.res) → rest.length ≤ ios.length → rest.length ≤ fuel →
      ∃ new, (stream_file R fuel ios rest rate log).2 = log ++ new ∧ wire new = rest := by
  induction fuel with
  | zero =>
    intro ios rest rate log _ _ hf
    have : rest = [] := List.length_eq_zero.mp (by omega)
    subst this
    exact ⟨[], by simp [stream_file], rfl⟩
  | succ fuel ih =>
    intro ios rest rate log hio hlen hf
    simp only [stream_file]
    split
    · rename_i hbuf
      have : rest = [] := by
        cases rest with
        | nil => rfl
        | cons x xs => simp [BUFFER_SIZE] at hbuf
      subst this
      exact ⟨[], by simp, rfl⟩
    · rename_i b bs hbuf
      have hbl : (b :: bs).length = min BUFFER_SIZE rest.length := by
        rw [← hbuf, List.length_take]
      obtain ⟨hok, hio', hlen'⟩ := send_block_complete R ios (b :: bs) rate log hio (by omega)
      obtain ⟨new1, k1, h1, _, _, h4⟩ := send_block_log R ios (b :: bs) rate log
      rw [if_pos hok]
      have hpos : 0 < (b :: bs).length := by simp
      obtain ⟨new2, g1, g2⟩ := ih (send_block R ios (b :: bs) rate log).2.1
        (rest.drop BUFFER_SIZE) (send_block R ios (b :: bs) rate log).2.2.1
        (send_block R ios (b :: bs) rate log).2.2.2 hio'
        (by simp only [List.length_drop]; omega)
        (by simp only [List.length_drop]; omega)
      refine ⟨new1 ++ new2, by rw [g1, h1]; simp, ?_⟩
      rw [wire_append, h4 hok, g2, ← hbuf, List.take_append_drop]

/-! ## C3: request decoding -/

/-- C3, as stated, fails: a request whose OFFSET field is `abc` is served (the file
is stat-ed and opened and the answer is `OK|10`), and a request whose MODE is
`PUT` is answered `ERROR:MODE`; neither is answered `ERROR:INVALID`. -/
theorem decode_not_invalid :
    (first_send (client_handler env0 (lit "RECV|abc|f") (srv0 [(lit "f", ten_bytes)])).log
        = lit "OK|10\n" ∧
      first_send (client_handler env0 (lit "RECV|abc|f") (srv0 [(lit "f", ten_bytes)])).log
        ≠ lit "ERROR:INVALID\n" ∧
      Ev.stat (lit "f") ∈ (client_handler env0 (lit "RECV|abc|f") (srv0 [(lit "f", ten_bytes)])).log ∧
      Ev.opened (lit "f") ∈
        (client_handler env0 (lit "RECV|abc|f") (srv0 [(lit "f", ten_bytes)])).log) ∧
    (first_send (client_handler env0 (lit "PUT|0|f") (srv0 [(lit "f", ten_bytes)])).log
        = lit "ERROR:MODE\n" ∧
      first_send (client_handler env0 (lit "PUT|0|f") (srv0 [(lit "f", ten_bytes)])).log
        ≠ lit "ERROR:INVALID\n") := by
  decide

/-- C3 (amended): for every received header line, (1) if fewer than three
non-empty `|`-separated fields are present, the server answers `ERROR:INVALID`,
closes, and touches no file; (2) if three fields are present and MODE is neither
`SEND` nor `RECV`, the server answers `ERROR:MODE`, closes, and touches no file;
(3) with MODE `RECV` or `SEND` the request is always processed, with the offset
`atoll` reads from the OFFSET field, whether or not that field is a well-formed
decimal integer. -/
theorem decode_request (env : SrvEnv) (received : List Nat) (s : Srv) (hrecv : received ≠ []) :
    ((fields (cstr (received.take 1023))).length < 3 →
      (client_handler env received s).log
        = s.log ++ [Ev.send (lit "ERROR:INVALID\n"), Ev.close_sock, Ev.dec_clients] ∧
      (client_handler env received s).fs = s.fs) ∧
    (∀ m o p rest, fields (cstr (received.take 1023)) = m :: o :: p :: rest →
      m ≠ lit "RECV" → m ≠ lit "SEND" →
      (client_handler env received s).log
        = s.log ++ [Ev.send (lit "ERROR:MODE\n"), Ev.close_sock, Ev.dec_clients] ∧
      (client_handler env received s).fs = s.fs) ∧
    (∀ o p rest, fields (cstr (received.take 1023)) = lit "RECV" :: o :: p :: rest →
      client_handler env received s = handle_recv env (atoll o) p s) ∧
    (∀ o p rest, fields (cstr (received.take 1023)) = lit "SEND" :: o :: p :: rest →
      client_handler env received s = handle_send env (atoll o) p s) := by
  rw [client_handler_fields env received s hrecv]
  have e1 : send_lit "ERROR:INVALID\n" 14 = lit "ERROR:INVALID\n" := by decide
  have e2 : send_lit "ERROR:MODE\n" 11 = lit "ERROR:MODE\n" := by decide
  refine ⟨?_, ?_, ?_, ?_⟩
  · intro hlt
    split
    · rename_i heq; rw [heq] at hlt; simp at hlt; omega
    · simp [finalize, Srv.emit, e1]
  · intro m o p rest heq hm1 hm2
    rw [heq]
    simp [hm1, hm2, finalize, Srv.emit, e2]
  · intro o p rest heq
    rw [heq]
    simp
  · intro o p rest heq
    rw [heq]
    have : lit "SEND" ≠ lit "RECV" := by decide
    simp [this]

theorem decode_request_witness :
    (client_handler env0 (lit "RECV|7") (srv0 [(lit "f", ten_bytes)])).log
        = [Ev.send (lit "ERROR:INVALID\n"), Ev.close_sock, Ev.dec_clients] ∧
    (client_handler env0 (lit "RECV|7") (srv0 [(lit "f", ten_bytes)])).fs = [(lit "f", ten_bytes)] :=
  (decode_request env0 (lit "RECV|7") (srv0 [(lit "f", ten_bytes)]) (by decide)).1 (by decide)

/-- With MODE `RECV` or `SEND` and three fields present the handler runs the
branch of that mode on the decoded offset and the path. -/
theorem decode_request_aux (env : SrvEnv) (received : List Nat) (s : Srv) (hrecv : received ≠ []) :
    (∀ o p rest, fields (cstr (received.take 1023)) = lit "RECV" :: o :: p :: rest →
      client_handler env received s = handle_recv env (atoll o) p s) ∧
    (∀ o p rest, fields (cstr (received.take 1023)) = lit "SEND" :: o :: p :: rest →
      client_handler env received s = handle_send env (atoll o) p s) := by
  rw [client_handler_fields env received s hrecv]
  refine ⟨?_, ?_⟩
  · intro o p rest heq
    rw [heq]
    simp
  · intro o p rest heq
    rw [heq]
    have : lit "SEND" ≠ lit "RECV" := by decide
    simp [this]

/-! ## C4: offset clamping of a download request -/

/-- C4, as stated, fails for a negative OFFSET: for `RECV|-5|f` with a file of 10
bytes the server reports `remaining = 15`, more than the file size, and streams
the whole file from position 0. -/
theorem recv_negative_offset :
    atoll (lit "-5") = -5 ∧
    first_send (client_handler env0 (lit "RECV|-5|f") (srv0 [(lit "f", ten_bytes)])).log
      = lit "OK|15\n" ∧
    ¬ ((15 : Int) ≤ (ten_bytes.length : Int)) ∧
    wire (client_handler
        { env0 with ios := [{ now := 0, clients := 1, res := 4096, disk := 0 }] }
        (lit "RECV|-5|f") (srv0 [(lit "f", ten_bytes)])).log
      = lit "OK|15\n" ++ ten_bytes := by
  decide

/-- C4 (amended): for every RECV request whose OFFSET field decodes to an integer
`o ≥ 0` and whose target file exists with size `S` (and can be opened), the
server answers `OK|<S - min o S>` and then streams from position `min o S`:
what follows the answer on the connection is always an initial part of the file
content from that position on, and it is all of it, up to the end of the file,
when every `send` of the connection moves at least one byte; the reported
remaining is 0 whenever `o > S`, lies between 0 and `S`, and added to the
effective offset gives `S`. -/
theorem recv_offset_clamped (env : SrvEnv) (received : List Nat) (s : Srv)
    (o_str path : List Nat) (rest : List (List Nat)) (content : List Nat)
    (hreq : fields (cstr (received.take 1023)) = lit "RECV" :: o_str :: path :: rest)
    (ho : 0 ≤ atoll o_str)
    (hfile : s.fs.stat path = some content)
    (hsize : (content.length : Int) ≤ LLONG_MAX)
    (hopen : env.open_ok = true) :
    (∃ k,
      wire ((client_handler env received s).log.drop s.log.length)
        = lit "OK|" ++ fmt_lld ((content.length : Int) - min (atoll o_str) content.length)
            ++ lit "\n" ++ (content.drop (min (atoll o_str) content.length).toNat).take k) ∧
    ((∀ io ∈ env.ios, 0 < io.res) →
      (content.drop (min (atoll o_str) content.length).toNat).length ≤ env.ios.length →
      wire ((client_handler env received s).log.drop s.log.length)
        = lit "OK|" ++ fmt_lld ((content.length : Int) - min (atoll o_str) content.length)
            ++ lit "\n" ++ content.drop (min (atoll o_str) content.length).toNat) ∧
    first_send ((client_handler env received s).log.drop s.log.length)
      = lit "OK|" ++ fmt_lld ((content.length : Int) - min (atoll o_str) content.length)
          ++ lit "\n" ∧
    0 ≤ (content.length : Int) - min (atoll o_str) content.length ∧
    (content.length : Int) - min (atoll o_str) content.length ≤ content.length ∧
    min (atoll o_str) content.length
      + ((content.length : Int) - min (atoll o_str) content.length) = content.length ∧
    (atoll o_str > content.length →
      (content.length : Int) - min (atoll o_str) content.length = 0) := by
  have hrecv : received ≠ [] := by
    intro h
    subst h
    have : fields (cstr (List.take 1023 ([] : List Nat))) = [] := by decide
    rw [this] at hreq
    exact absurd hreq (by simp)
  have hdisp := (decode_request_aux env received s hrecv).1 o_str path rest hreq
  obtain ⟨new, k, h1, h2, h3, _, h5⟩ :=
    handle_recv_ok env (atoll o_str) path s content hfile hopen ho hsize
  refine ⟨⟨k, ?_⟩, ?_, ?_, by omega, by omega, by omega, by intro h; omega⟩
  · rw [hdisp, h1]
    simp only [List.append_assoc, List.drop_left, wire_append, wire, h3]
    simp
  · intro hsend hsendn
    obtain ⟨new', g1, g2⟩ := stream_file_complete env.RATE_LIMIT (content.length + 1) env.ios
      (content.drop (min (atoll o_str) content.length).toNat) s.rate
      (s.log ++ [Ev.stat path, Ev.opened path,
        Ev.send (lit "OK|" ++ fmt_lld ((content.length : Int) - min (atoll o_str) content.length)
          ++ lit "\n")]) hsend hsendn (by simp only [List.length_drop]; omega)
    have hnew : new = new' := List.append_cancel_left (h5.symm.trans g1)
    subst hnew
    rw [hdisp, h1]
    simp only [List.append_assoc, List.drop_left, wire_append, wire, g2]
    simp
  · rw [hdisp, h1]
    simp only [List.append_assoc, List.drop_left]
    simp [first_send]

theorem recv_offset_clamped_witness :
    (wire ((client_handler env_ok (lit "RECV|4|f") (srv0 [(lit "f", ten_bytes)])).log.drop
        (srv0 [(lit "f", ten_bytes)]).log.length)
      = lit "OK|6\n" ++ [5, 6, 7, 8, 9, 10] ∧
    first_send ((client_handler env_ok (lit "RECV|4|f") (srv0 [(lit "f", ten_bytes)])).log.drop
        (srv0 [(lit "f", ten_bytes)]).log.length)
      = lit "OK|6\n") ∧
    (wire ((client_handler env_ok (lit "RECV|25|f") (srv0 [(lit "f", ten_bytes)])).log.drop
        (srv0 [(lit "f", ten_bytes)]).log.length)
      = lit "OK|0\n" ∧
    (ten_bytes.length : Int) - min (atoll (lit "25")) ten_bytes.length = 0) :=
  have h := recv_offset_clamped env_ok (lit "RECV|4|f") (srv0 [(lit "f", ten_bytes)])
    (lit "4") (lit "f") [] ten_bytes (by decide) (by decide) (by decide) (by decide) rfl
  have g := recv_offset_clamped env_ok (lit "RECV|25|f") (srv0 [(lit "f", ten_bytes)])
    (lit "25") (lit "f") [] ten_bytes (by decide) (by decide) (by decide) (by decide) rfl
  have e1 : lit "OK|" ++ fmt_lld ((ten_bytes.length : Int) - min (atoll (lit "4")) ten_bytes.length)
      ++ lit "\n" ++ ten_bytes.drop (min (atoll (lit "4")) ten_bytes.length).toNat
      = lit "OK|6\n" ++ [5, 6, 7, 8, 9, 10] := by decide
  have e2 : lit "OK|" ++ fmt_lld ((ten_bytes.length : Int) - min (atoll (lit "4")) ten_bytes.length)
      ++ lit "\n" = lit "OK|6\n" := by decide
  have e3 : lit "OK|" ++ fmt_lld ((ten_bytes.length : Int) - min (atoll (lit "25")) ten_bytes.length)
      ++ lit "\n" ++ ten_bytes.drop (min (atoll (lit "25")) ten_bytes.length).toNat
      = lit "OK|0\n" := by decide
  ⟨⟨(h.2.1 (by decide) (by decide)).trans e1, h.2.2.1.trans e2⟩,
    (g.2.1 (by decide) (by decide)).trans e3, g.2.2.2.2.2.2 (by decide)⟩

/-! ## C10: wire format of the responses -/

/-- C10: the answer to a download request for a missing file is sent with length 17
although the text `ERROR:NOT_FOUND\n` has 16 bytes, so a NUL byte follows it on the
wire; every other response literal is sent with the length of its text. -/
theorem not_found_reply_extra_byte :
    wire (client_handler env0 (lit "RECV|0|missing") (srv0 [])).log
      = lit "ERROR:NOT_FOUND\n" ++ [0] ∧
    (lit "ERROR:NOT_FOUND\n").length = 16 ∧
    wire (client_handler env0 (lit "RECV|0|missing") (srv0 [])).log ≠ lit "ERROR:NOT_FOUND\n" ∧
    send_lit "OK\n" 3 = lit "OK\n" ∧
    send_lit "ERROR:INVALID\n" 14 = lit "ERROR:INVALID\n" ∧
    send_lit "ERROR:IO\n" 9 = lit "ERROR:IO\n" ∧
    send_lit "ERROR:MODE\n" 11 = lit "ERROR:MODE\n" ∧
    send_lit "ERROR:BUSY\n" 11 = lit "ERROR:BUSY\n" := by
  decide

/-! ## C5: admission bound -/

theorem sys_step_inv (K : Int) (s : Sys) (e : Step) (r : Sys × List Nat)
    (hs : sys_inv K s) (hstep : sys_step K s e = some r) : sys_inv K r.1 := by
  obtain ⟨h1, h2⟩ := hs
  cases e with
  | arrive =>
    simp only [sys_step] at hstep
    cases hpc : s.pc with
    | admitted => simp [hpc] at hstep
    | idle =>
      simp only [hpc] at hstep h1
      split at hstep
      · simp only [Option.some.injEq] at hstep
        subst hstep
        exact ⟨by simp [hpc]; simpa using h1, h2⟩
      · simp only [Option.some.injEq] at hstep
        subst hstep
        refine ⟨?_, ?_⟩
        · simp; simpa using h1
        · simp; omega
  | spawn sp =>
    simp only [sys_step] at hstep
    cases hpc : s.pc with
    | idle => simp [hpc] at hstep
    | admitted =>
      simp only [hpc] at hstep h1
      cases sp <;>
      · simp only [Option.some.injEq] at hstep
        subst hstep
        refine ⟨?_, ?_⟩
        · simp; simp at h1; omega
        · simp; omega
  | worker_exit env received fs rate =>
    simp only [sys_step] at hstep
    cases hw : s.workers with
    | zero => simp [hw] at hstep
    | succ w =>
      simp only [hw, Option.some.injEq] at hstep
      subst hstep
      obtain ⟨_, _, _, hcc⟩ := client_handler_shape env received
        { fs := fs, rate := rate, current_clients := s.current_clients, log := [] }
      simp only at hcc
      rw [hw] at h1
      refine ⟨?_, ?_⟩
      · simp only [hcc]; push_cast at h1; omega
      · simp only [hcc]; omega

theorem sys_run_inv (K : Int) (steps : List Step) :
    ∀ s r : Sys, sys_inv K s → sys_run K s steps = some r → sys_inv K r := by
  induction steps with
  | nil =>
    intro s r hs hrun
    simp only [sys_run, Option.some.injEq] at hrun
    subst hrun
    exact hs
  | cons e es ih =>
    intro s r hs hrun
    simp only [sys_run] at hrun
    cases hstep : sys_step K s e with
    | none => simp [hstep] at hrun
    | some q =>
      simp only [hstep] at hrun
      exact ih q.1 r (sys_step_inv K s e q hs hstep) hrun

/-- C5: with `max_clients = K ≥ 0` and `current_clients` initially 0, every state
the server reaches has `0 ≤ current_clients ≤ K`; a connection that arrives when
`current_clients = K` is answered `ERROR:BUSY` and leaves the state unchanged; a
connection that arrives when `current_clients < K` gets no such answer and
increases `current_clients` by exactly one. -/
theorem admission_bound (K : Int) (hK : 0 ≤ K) :
    (∀ steps s, sys_run K sys_init steps = some s →
      0 ≤ s.current_clients ∧ s.current_clients ≤ K) ∧
    (∀ s : Sys, s.pc = Pc.idle → s.current_clients = K →
      sys_step K s Step.arrive = some (s, lit "ERROR:BUSY\n")) ∧
    (∀ s : Sys, s.pc = Pc.idle → s.current_clients < K →
      sys_step K s Step.arrive
        = some ({ s with current_clients := s.current_clients + 1, pc := Pc.admitted }, [])) := by
  refine ⟨?_, ?_, ?_⟩
  · intro steps s hrun
    have hinit : sys_inv K sys_init := ⟨by decide, by simpa [sys_init] using hK⟩
    obtain ⟨h1, h2⟩ := sys_run_inv K steps sys_init s hinit hrun
    refine ⟨?_, h2⟩
    rw [h1]
    split <;> omega
  · intro s hpc hcc
    have e : send_lit "ERROR:BUSY\n" 11 = lit "ERROR:BUSY\n" := by decide
    simp [sys_step, hpc, hcc, e]
  · intro s hpc hcc
    simp only [sys_step, hpc]
    rw [if_neg (by omega)]

theorem admission_bound_witness :
    sys_run 2 sys_init [Step.arrive, Step.spawn Spawn.started, Step.arrive,
        Step.spawn Spawn.started, Step.arrive, Step.worker_exit env0 [] [] ⟨0, 0⟩]
      = some { current_clients := 1, workers := 1, pc := Pc.idle } ∧
    (0 : Int) ≤ 1 ∧ (1 : Int) ≤ 2 :=
  ⟨by decide,
    (admission_bound 2 (by decide)).1
      [Step.arrive, Step.spawn Spawn.started, Step.arrive, Step.spawn Spawn.started, Step.arrive,
        Step.worker_exit env0 [] [] ⟨0, 0⟩]
      { current_clients := 1, workers := 1, pc := Pc.idle } (by decide)⟩

/-! ## C6: the admission slot is released exactly once -/

/-- C6: every run of `client_handler`, whatever it receives and whatever the
environment does, closes the connection once and decrements `current_clients`
exactly once, so that after an accepted connection has been handled the counter
is back at its value before the connection (also when the worker cannot be
started); a request with fewer than three fields is answered `ERROR:INVALID`,
then the connection is closed and the counter decremented. -/
theorem slot_released_once (env : SrvEnv) (received : List Nat) (s : Srv) :
    (client_handler env received s).current_clients = s.current_clients - 1 ∧
    (client_handler env received s).log.count Ev.dec_clients = s.log.count Ev.dec_clients + 1 ∧
    (client_handler env received s).log.count Ev.close_sock = s.log.count Ev.close_sock + 1 ∧
    (∀ (K : Int) (sys : Sys), sys.pc = Pc.idle → sys.current_clients < K →
      (∃ sys', sys_run K sys
          [Step.arrive, Step.spawn Spawn.started, Step.worker_exit env received s.fs s.rate]
            = some sys' ∧ sys'.current_clients = sys.current_clients) ∧
      (∃ sys', sys_run K sys [Step.arrive, Step.spawn Spawn.malloc_failed] = some sys' ∧
        sys'.current_clients = sys.current_clients) ∧
      (∃ sys', sys_run K sys [Step.arrive, Step.spawn Spawn.pthread_create_failed] = some sys' ∧
        sys'.current_clients = sys.current_clients)) ∧
    (received ≠ [] → (fields (cstr (received.take 1023))).length < 3 →
      (client_handler env received s).log
        = s.log ++ [Ev.send (lit "ERROR:INVALID\n"), Ev.close_sock, Ev.dec_clients]) := by
  obtain ⟨mid, hlog, hmid, hcc⟩ := client_handler_shape env received s
  have hc1 : mid.count Ev.dec_clients = 0 :=
    List.count_eq_zero.mpr (fun h => (hmid _ h).2 rfl)
  have hc2 : mid.count Ev.close_sock = 0 :=
    List.count_eq_zero.mpr (fun h => (hmid _ h).1 rfl)
  refine ⟨hcc, ?_, ?_, ?_, ?_⟩
  · rw [hlog]; simp [List.count_append, hc1, List.count_cons]
  · rw [hlog]; simp [List.count_append, hc2, List.count_cons]
  · intro K sys hpc hlt
    obtain ⟨_, _, _, hcc'⟩ := client_handler_shape env received
      { fs := s.fs, rate := s.rate, current_clients := sys.current_clients + 1, log := [] }
    have hge : ¬ sys.current_clients ≥ K := by omega
    refine ⟨?_, ?_, ?_⟩
    · simp only [sys_run, sys_step, hpc, hge, if_false]
      exact ⟨_, rfl, by simp only [hcc']; omega⟩
    · simp only [sys_run, sys_step, hpc, hge, if_false]
      exact ⟨_, rfl, by simp⟩
    · simp only [sys_run, sys_step, hpc, hge, if_false]
      exact ⟨_, rfl, by simp⟩
  · intro hrecv hlt
    rw [client_handler_fields env received s hrecv]
    have e1 : send_lit "ERROR:INVALID\n" 14 = lit "ERROR:INVALID\n" := by decide
    split
    · rename_i heq; rw [heq] at hlt; simp at hlt; omega
    · simp [finalize, Srv.emit, e1]

theorem slot_released_once_witness :
    (client_handler env0 (lit "SEND|0") (srv0 [])).log
      = [Ev.send (lit "ERROR:INVALID\n"), Ev.close_sock, Ev.dec_clients] ∧
    (client_handler env0 (lit "SEND|0") (srv0 [])).current_clients = 0 :=
  ⟨(slot_released_once env0 (lit "SEND|0") (srv0 [])).2.2.2.2 (by decide) (by decide),
    (slot_released_once env0 (lit "SEND|0") (srv0 [])).1⟩

/-! ## Client: the handshake -/

theorem strncmp_eq_ne_nil (r p : List Nat) (hp : p ≠ []) (h : strncmp_eq r p = true) : r ≠ [] := by
  intro hr
  subst hr
  simp [strncmp_eq] at h
  exact hp h

/-- A pass that reaches the handshake and is answered with an error: it sends one
header, touches no file, and either asks for a retry (busy) or returns -1. -/
theorem transfer_attempt_error (a : Attempt) (src dst : List Nat) (c : Cli) (p : Plan)
    (hplan : transfer_plan src dst c.fs = some p)
    (hconn : a.connect_ok = true) (hhdr : a.header_ok = true)
    (herr : strncmp_eq (cstr (a.response.take 1023)) (lit "ERROR") = true) :
    transfer_attempt a src dst c =
      if strstr (cstr (a.response.take 1023)) (lit "BUSY") then
        Outcome.busy { fs := c.fs, log := c.log ++ [CEv.connect, CEv.header (request_header p)] }
      else Outcome.ret (-1)
        { fs := c.fs, log := c.log ++ [CEv.connect, CEv.header (request_header p)] } := by
  have hne : cstr (a.response.take 1023) ≠ [] := strncmp_eq_ne_nil _ _ (by decide) herr
  have hne2 : a.response.take 1023 ≠ [] := by
    intro h0; rw [h0] at hne; exact hne rfl
  obtain ⟨b, bs, hb⟩ := List.exists_cons_of_ne_nil hne2
  unfold transfer_attempt
  rw [hb] at herr
  simp only [hplan, hconn, hhdr, hb, Cli.emit, herr, if_true, Bool.not_true, Bool.false_eq_true,
    if_false, List.append_assoc, List.singleton_append]

/-- The retry loop when every attempt is answered busy: from `retry_count ≤ 6` on,
with at least `7 - retry_count` passes allowed, it makes `6 - retry_count`
handshakes and returns -1 with the files untouched. -/
theorem transfer_file_from_busy (net : Nat → Attempt) (src dst : List Nat) (p : Plan) (fs : FS)
    (hnet : ∀ k, (net k).connect_ok = true ∧ (net k).header_ok = true ∧
      is_busy (net k).response = true) (fuel : Nat) :
    ∀ (retry_count : Nat) (log : List CEv), transfer_plan src dst fs = some p →
      retry_count ≤ max_retries + 1 → max_retries + 2 ≤ fuel + retry_count →
      transfer_file_from net src dst fuel retry_count { fs := fs, log := log }
        = (-1, { fs := fs, log := log ++
            (List.replicate (max_retries + 1 - retry_count)
              [CEv.connect, CEv.header (request_header p)]).flatten }) := by
  induction fuel with
  | zero =>
    intro rc log _ h1 h2
    exact absurd h2 (by omega)
  | succ fuel ih =>
    intro rc log hplan h1 h2
    simp only [transfer_file_from]
    by_cases hrc : rc > max_retries
    · have : max_retries + 1 - rc = 0 := by omega
      simp [hrc, this]
    · obtain ⟨hc, hh, hb⟩ := hnet rc
      simp only [is_busy, Bool.and_eq_true] at hb
      rw [if_neg hrc, transfer_attempt_error (net rc) src dst _ p hplan hc hh hb.1]
      simp only [hb.2, if_true]
      rw [ih (rc + 1) _ hplan (by omega) (by omega)]
      have : max_retries + 1 - rc = (max_retries + 1 - (rc + 1)) + 1 := by omega
      rw [this, List.replicate_succ]
      simp

theorem transfer_file_from_succ (net : Nat → Attempt) (src dst : List Nat) (fuel rc : Nat)
    (c : Cli) :
    transfer_file_from net src dst (fuel + 1) rc c =
      if rc > max_retries then (-1, c)
      else
        match transfer_attempt (net rc) src dst c with
        | Outcome.busy c1 => transfer_file_from net src dst fuel (rc + 1) c1
        | Outcome.ret code c1 => (code, c1) :=
  rfl

/-- The retry loop when the attempts before attempt `j` are answered busy and
attempt `j` is answered with another error: from `retry_count ≤ j` on it makes
`j + 1 - retry_count` handshakes and returns -1 with the files untouched. -/
theorem transfer_file_from_fatal (net : Nat → Attempt) (src dst : List Nat) (p : Plan) (fs : FS)
    (j : Nat) (hj : j ≤ max_retries)
    (hnet : ∀ k, (net k).connect_ok = true ∧ (net k).header_ok = true)
    (hbusy : ∀ k, k < j → is_busy (net k).response = true)
    (hfatal : is_fatal (net j).response = true) (fuel : Nat) :
    ∀ (retry_count : Nat) (log : List CEv), transfer_plan src dst fs = some p →
      retry_count ≤ j → j + 1 ≤ fuel + retry_count →
      transfer_file_from net src dst fuel retry_count { fs := fs, log := log }
        = (-1, { fs := fs, log := log ++
            (List.replicate (j + 1 - retry_count)
              [CEv.connect, CEv.header (request_header p)]).flatten }) := by
  induction fuel with
  | zero =>
    intro rc log _ h1 h2
    exact absurd h2 (by omega)
  | succ fuel ih =>
    intro rc log hplan h1 h2
    rw [transfer_file_from_succ]
    have hrc : ¬ rc > max_retries := by omega
    rw [if_neg hrc]
    by_cases hlt : rc < j
    · have hb := hbusy rc hlt
      simp only [is_busy, Bool.and_eq_true] at hb
      rw [transfer_attempt_error (net rc) src dst _ p hplan (hnet rc).1 (hnet rc).2 hb.1]
      simp only [hb.2, if_true]
      rw [ih (rc + 1) _ hplan (by omega) (by omega)]
      have : j + 1 - rc = (j + 1 - (rc + 1)) + 1 := by omega
      rw [this, List.replicate_succ]
      simp
    · have hrj : rc = j := by omega
      subst hrj
      simp only [is_fatal, Bool.and_eq_true, Bool.not_eq_true'] at hfatal
      rw [transfer_attempt_error (net rc) src dst _ p hplan (hnet rc).1 (hnet rc).2 hfatal.1]
      simp [hfatal.2]

theorem headers_handshakes (h : List Nat) (n : Nat) :
    headers (List.replicate n [CEv.connect, CEv.header h]).flatten = List.replicate n h := by
  induction n with
  | zero => rfl
  | succ n ih => simp [List.replicate_succ, headers, ih]

/-! ## C7: retry bound -/

/-- C7: when the arguments let `transfer_file` get as far as connecting and every
connection attempt connects, sends its header and is answered with an error
that contains `BUSY`, `transfer_file` makes exactly 6 handshakes, returns -1 (exit
code 1) and leaves every file as it was, doing nothing but connecting and sending
headers; when instead some attempt `j` (the first one or, after `j` busy
answers, a retry) is answered with an error that does not contain `BUSY`, it
returns -1 (exit code 1) right after that handshake: `j + 1` handshakes in all, no
further attempt, files untouched. -/
theorem retry_bound (net : Nat → Attempt) (src dst : List Nat) (fs : FS) (p : Plan)
    (hplan : transfer_plan src dst fs = some p)
    (hnet : ∀ k, (net k).connect_ok = true ∧ (net k).header_ok = true) :
    ((∀ k, is_busy (net k).response = true) →
      (transfer_file net src dst fs).1 = -1 ∧
      client_exit_code net src dst fs = 1 ∧
      headers (transfer_file net src dst fs).2.log = List.replicate 6 (request_header p) ∧
      (transfer_file net src dst fs).2.fs = fs ∧
      ∀ e ∈ (transfer_file net src dst fs).2.log,
        e = CEv.connect ∨ e = CEv.header (request_header p)) ∧
    (is_fatal (net 0).response = true →
      (transfer_file net src dst fs).1 = -1 ∧
      client_exit_code net src dst fs = 1 ∧
      (transfer_file net src dst fs).2.log = [CEv.connect, CEv.header (request_header p)] ∧
      (transfer_file net src dst fs).2.fs = fs) ∧
    (∀ j, j ≤ max_retries → (∀ k, k < j → is_busy (net k).response = true) →
      is_fatal (net j).response = true →
      (transfer_file net src dst fs).1 = -1 ∧
      client_exit_code net src dst fs = 1 ∧
      (transfer_file net src dst fs).2.log
        = (List.replicate (j + 1) [CEv.connect, CEv.header (request_header p)]).flatten ∧
      headers (transfer_file net src dst fs).2.log
        = List.replicate (j + 1) (request_header p) ∧
      (transfer_file net src dst fs).2.fs = fs) := by
  have hgen : ∀ j, j ≤ max_retries → (∀ k, k < j → is_busy (net k).response = true) →
      is_fatal (net j).response = true →
      transfer_file net src dst fs = (-1, { fs := fs, log :=
        (List.replicate (j + 1) [CEv.connect, CEv.header (request_header p)]).flatten }) := by
    intro j hj hbusy hfatal
    have h := transfer_file_from_fatal net src dst p fs j hj hnet hbusy hfatal
      (max_retries + 2) 0 [] hplan (by omega) (by omega)
    unfold transfer_file
    rw [h]
    rfl
  refine ⟨?_, ?_, ?_⟩
  · intro hbusy
    have h := transfer_file_from_busy net src dst p fs
      (fun k => ⟨(hnet k).1, (hnet k).2, hbusy k⟩) (max_retries + 2) 0 [] hplan
      (by omega) (by omega)
    have hrun : transfer_file net src dst fs = (-1, { fs := fs, log :=
        (List.replicate 6 [CEv.connect, CEv.header (request_header p)]).flatten }) := by
      unfold transfer_file
      rw [h]
      rfl
    refine ⟨by rw [hrun], by simp [client_exit_code, hrun], ?_, by rw [hrun], ?_⟩
    · rw [hrun]; exact headers_handshakes _ 6
    · rw [hrun]
      intro e he
      simp only [List.mem_flatten, List.mem_replicate] at he
      obtain ⟨l, ⟨_, hl⟩, hel⟩ := he
      subst hl
      simpa using hel
  · intro hfatal
    have hrun := hgen 0 (Nat.zero_le _) (fun k hk => absurd hk (Nat.not_lt_zero k)) hfatal
    refine ⟨by rw [hrun], by simp [client_exit_code, hrun], by rw [hrun]; rfl, by rw [hrun]⟩
  · intro j hj hbusy hfatal
    have hrun := hgen j hj hbusy hfatal
    refine ⟨by rw [hrun], by simp [client_exit_code, hrun], by rw [hrun], ?_, by rw [hrun]⟩
    rw [hrun]; exact headers_handshakes _ (j + 1)

theorem retry_bound_witness :
    (headers (transfer_file (fun _ => busy_attempt) (lit "h:f") (lit "out")
        [(lit "out.part", [1, 2, 3])]).2.log
      = List.replicate 6 (lit "RECV|3|f") ∧
    (transfer_file (fun _ => busy_attempt) (lit "h:f") (lit "out")
        [(lit "out.part", [1, 2, 3])]).1 = -1 ∧
    (transfer_file (fun _ => busy_attempt) (lit "h:f") (lit "out")
        [(lit "out.part", [1, 2, 3])]).2.fs = [(lit "out.part", [1, 2, 3])]) ∧
    (is_busy (busy_then_error 0).response = true ∧ is_busy (busy_then_error 1).response = true ∧
    is_fatal (busy_then_error 2).response = true ∧
    headers (transfer_file busy_then_error (lit "h:f") (lit "out")
        [(lit "out.part", [1, 2, 3])]).2.log
      = List.replicate 3 (lit "RECV|3|f") ∧
    (transfer_file busy_then_error (lit "h:f") (lit "out")
        [(lit "out.part", [1, 2, 3])]).1 = -1 ∧
    (transfer_file busy_then_error (lit "h:f") (lit "out")
        [(lit "out.part", [1, 2, 3])]).2.fs = [(lit "out.part", [1, 2, 3])]) :=
  have h := (retry_bound (fun _ => busy_attempt) (lit "h:f") (lit "out")
    [(lit "out.part", [1, 2, 3])]
    { mode_recv := true, rpath := lit "f", local_path := lit "out", part_file := lit "out.part",
      offset := 3, st_size := 0 } (by decide) (fun _ => ⟨rfl, rfl⟩)).1 (fun _ => by decide)
  have g := (retry_bound busy_then_error (lit "h:f") (lit "out")
    [(lit "out.part", [1, 2, 3])]
    { mode_recv := true, rpath := lit "f", local_path := lit "out", part_file := lit "out.part",
      offset := 3, st_size := 0 } (by decide)
    (fun k => by unfold busy_then_error; split <;> exact ⟨rfl, rfl⟩)).2.2 2 (by decide)
    (fun k hk => by
      have : k = 0 ∨ k = 1 := by omega
      rcases this with h0 | h0 <;> subst h0 <;> decide)
    (by decide)
  ⟨⟨h.2.2.1, h.1, h.2.2.2.1⟩, by decide, by decide, by decide, g.2.2.2.1, g.1, g.2.2.2.2⟩

/-! ## File system -/

theorem lookup_filter_self (fs : FS) (p : Path) :
    List.lookup p (fs.filter (fun e => e.1 != p)) = none := by
  induction fs with
  | nil => rfl
  | cons e es ih =>
    obtain ⟨q, d⟩ := e
    by_cases h : q = p
    · subst h; simp [List.filter_cons, ih]
    · have h2 : (p == q) = false := by simp; exact fun h3 => h h3.symm
      simp [List.filter_cons, h, List.lookup_cons, h2, ih]

theorem lookup_filter_other (fs : FS) (p q : Path) (hq : q ≠ p) :
    List.lookup q (fs.filter (fun e => e.1 != p)) = List.lookup q fs := by
  induction fs with
  | nil => rfl
  | cons e es ih =>
    obtain ⟨r, d⟩ := e
    by_cases h : r = p
    · subst h
      have h2 : (q == r) = false := by simpa using hq
      simp [List.filter_cons, List.lookup_cons, h2, ih]
    · by_cases h3 : q = r
      · subst h3; simp [List.filter_cons, h, List.lookup_cons]
      · have h2 : (q == r) = false := by simpa using h3
        simp [List.filter_cons, h, List.lookup_cons, h2, ih]

theorem FS.stat_put_self (fs : FS) (p : Path) (d : List Nat) : (fs.put p d).stat p = some d := by
  simp [FS.put, FS.stat, List.lookup_cons]

theorem FS.stat_put_other (fs : FS) (p q : Path) (d : List Nat) (h : q ≠ p) :
    (fs.put p d).stat q = fs.stat q := by
  have h2 : (q == p) = false := by simpa using h
  simp only [FS.put, FS.stat, List.lookup_cons, h2]
  exact lookup_filter_other fs p q h

theorem FS.stat_unlink_self (fs : FS) (p : Path) : (fs.unlink p).stat p = none :=
  lookup_filter_self fs p

theorem FS.stat_unlink_other (fs : FS) (p q : Path) (h : q ≠ p) :
    (fs.unlink p).stat q = fs.stat q :=
  lookup_filter_other fs p q h

theorem download_loop_cons (limit : Int) (io : CStep) (ios : List CStep) (d : Download) :
    download_loop limit (io :: ios) d =
      if d.total_received < limit then
        if recv_result BUFFER_SIZE d.stream.length io.res ≤ 0 then d
        else download_loop limit ios
          { data := write_at d.data d.pos
              ((d.stream.take (recv_result BUFFER_SIZE d.stream.length io.res).toNat).take
                (write_result (recv_result BUFFER_SIZE d.stream.length io.res) io.disk).toNat)
            pos := d.pos + (write_result (recv_result BUFFER_SIZE d.stream.length io.res) io.disk).toNat
            total_received := d.total_received + recv_result BUFFER_SIZE d.stream.length io.res
            next_chunk :=
              if d.total_received + recv_result BUFFER_SIZE d.stream.length io.res ≥ d.next_chunk
              then d.next_chunk + CHUNK_SIZE else d.next_chunk
            stream := d.stream.drop (recv_result BUFFER_SIZE d.stream.length io.res).toNat
            log :=
              if d.total_received + recv_result BUFFER_SIZE d.stream.length io.res ≥ d.next_chunk
              then d.log ++ [CEv.fsync (d.total_received
                + recv_result BUFFER_SIZE d.stream.length io.res)] else d.log }
      else d :=
  rfl

/-- More fuel than bytes left does not change what the client's outer upload loop does. -/
theorem upload_loop_fuel (part_file : Path) (marker_ok : Bool) (fuel : Nat) :
    ∀ (ios : List CStep) (rest : List Nat) (u : UploadC), rest.length ≤ fuel →
      upload_loop part_file marker_ok (fuel + 1) ios rest u
        = upload_loop part_file marker_ok fuel ios rest u := by
  induction fuel with
  | zero =>
    intro ios rest u h
    have : rest = [] := List.length_eq_zero.mp (by omega)
    subst this
    simp [upload_loop]
  | succ fuel ih =>
    intro ios rest u h
    rw [upload_loop.eq_def part_file marker_ok (fuel + 1 + 1),
      upload_loop.eq_def part_file marker_ok (fuel + 1)]
    simp only
    split
    · rfl
    · rename_i b bs hbuf
      have hlen : (rest.drop BUFFER_SIZE).length ≤ fuel := by
        have : rest ≠ [] := by intro h0; subst h0; simp at hbuf
        have : 0 < rest.length := List.length_pos.mpr this
        simp only [List.length_drop, BUFFER_SIZE]
        omega
      rw [ih _ _ _ hlen]

/-- The retry loop never needs more than `max_retries + 2 - retry_count` passes. -/
theorem transfer_file_from_fuel (net : Nat → Attempt) (src dst : List Nat) (fuel : Nat) :
    ∀ (rc : Nat) (c : Cli), max_retries + 2 ≤ fuel + rc →
      transfer_file_from net src dst (fuel + 1) rc c = transfer_file_from net src dst fuel rc c := by
  induction fuel with
  | zero =>
    intro rc c h
    have : rc > max_retries := by omega
    simp [transfer_file_from, this]
  | succ fuel ih =>
    intro rc c h
    rw [transfer_file_from_succ net src dst (fuel + 1), transfer_file_from_succ net src dst fuel]
    split
    · rfl
    · split
      · exact ih _ _ (by omega)
      · rfl

/-! ## Server: the upload branch -/

/-- Whenever the upload branch gets past `open` and `lseek` and the `rename` does
not fail, it ends by renaming the `.part` file to the final path, however its
receive loop ended: the final path then holds what the `.part` file held and,
the two names being different, no `.part` file is left. -/
theorem handle_send_renames (env : SrvEnv) (offset : Int) (filepath : Path) (s : Srv)
    (hopen : env.open_ok = true) (hoff : 0 ≤ offset) (hren : env.rename_ok = true) :
    (handle_send env offset filepath s).fs.stat filepath
      = some (recv_loop env.RATE_LIMIT env.ios
          { data := (s.fs.stat (snprintf 1024 (filepath ++ lit ".part"))).getD []
            pos := offset.toNat
            total_received := offset
            next_chunk := (Int.tdiv offset CHUNK_SIZE + 1) * CHUNK_SIZE
            stream := env.stream
            rate := s.rate
            log := s.log ++ [Ev.stat (snprintf 1024 (filepath ++ lit ".part")),
              Ev.opened (snprintf 1024 (filepath ++ lit ".part")),
              Ev.send (send_lit "OK\n" 3)] }).data ∧
    (snprintf 1024 (filepath ++ lit ".part") ≠ filepath →
      (handle_send env offset filepath s).fs.stat (snprintf 1024 (filepath ++ lit ".part"))
        = none) ∧
    Ev.renamed (snprintf 1024 (filepath ++ lit ".part")) filepath
      ∈ (handle_send env offset filepath s).log := by
  have hsk : lseek_set 0 offset = (offset.toNat, offset) := by
    simp only [lseek_set]; rw [if_neg (by omega)]
  unfold handle_send
  simp only [hopen, hren, hsk, Srv.emit, finalize, FS.rename, FS.stat_put_self, Bool.not_true,
    Bool.false_eq_true, if_false, if_true, List.append_assoc, List.singleton_append]
  rw [if_neg (by omega)]
  refine ⟨FS.stat_put_self _ _ _, ?_, ?_⟩
  · intro hne
    simp only
    rw [FS.stat_put_other _ _ _ _ hne, FS.stat_unlink_self]
  · simp

theorem throttled_recv_le (R : Int) (io : IoStep) (st : RateState) (n pending : Nat)
    (h : 0 < (throttled_recv R io st n pending).2) :
    (throttled_recv R io st n pending).2 ≤ n ∧ (throttled_recv R io st n pending).2 ≤ pending := by
  rw [throttled_recv_eq] at h ⊢
  simp only at h ⊢
  have hL : (if (n : Int) > (get_available_bytes R io.clients io.now st).2
      then (get_available_bytes R io.clients io.now st).2 else (n : Int)) ≤ n := by
    split <;> omega
  have := recv_result_le _ _ _ h
  omega

theorem throttled_recv_pos (R : Int) (io : IoStep) (st : RateState) (n pending : Nat)
    (hn : 0 < n) (hp : 0 < pending) (hres : 0 < io.res) :
    0 < (throttled_recv R io st n pending).2 := by
  rw [throttled_recv_eq]
  simp only
  have hg := get_available_bytes_pos R io.clients io.now st
  apply recv_result_pos _ hp hres
  split <;> omega

theorem write_at_beyond (data bs : List Nat) (pos : Nat) (hpos : data.length ≤ pos)
    (hbs : bs ≠ []) : write_at data pos bs = data ++ List.replicate (pos - data.length) 0 ++ bs := by
  cases bs with
  | nil => exact absurd rfl hbs
  | cons b bs =>
    simp only [write_at]
    rw [List.take_of_length_le hpos, List.drop_of_length_le (by omega)]
    simp

theorem recv_loop_cons (R : Int) (io : IoStep) (ios : List IoStep) (u : Upload) :
    recv_loop R (io :: ios) u =
      if (throttled_recv R io u.rate BUFFER_SIZE u.stream.length).2 ≤ 0 then
        { u with rate := (throttled_recv R io u.rate BUFFER_SIZE u.stream.length).1 }
      else if write_result (throttled_recv R io u.rate BUFFER_SIZE u.stream.length).2 io.disk
          < (throttled_recv R io u.rate BUFFER_SIZE u.stream.length).2 then
        { u with
          rate := (throttled_recv R io u.rate BUFFER_SIZE u.stream.length).1
          stream := u.stream.drop (throttled_recv R io u.rate BUFFER_SIZE u.stream.length).2.toNat
          data := write_at u.data u.pos
            ((u.stream.take (throttled_recv R io u.rate BUFFER_SIZE u.stream.length).2.toNat).take
              (write_result (throttled_recv R io u.rate BUFFER_SIZE u.stream.length).2
                io.disk).toNat)
          pos := u.pos + (write_result
            (throttled_recv R io u.rate BUFFER_SIZE u.stream.length).2 io.disk).toNat }
      else
        recv_loop R ios
          { data := write_at u.data u.pos
              (u.stream.take (throttled_recv R io u.rate BUFFER_SIZE u.stream.length).2.toNat)
            pos := u.pos
              + (u.stream.take (throttled_recv R io u.rate BUFFER_SIZE u.stream.length).2.toNat).length
            total_received := u.total_received + write_result
              (throttled_recv R io u.rate BUFFER_SIZE u.stream.length).2 io.disk
            next_chunk :=
              if u.total_received + write_result
                  (throttled_recv R io u.rate BUFFER_SIZE u.stream.length).2 io.disk ≥ u.next_chunk
              then u.next_chunk + CHUNK_SIZE else u.next_chunk
            stream := u.stream.drop (throttled_recv R io u.rate BUFFER_SIZE u.stream.length).2.toNat
            rate := (throttled_recv R io u.rate BUFFER_SIZE u.stream.length).1
            log :=
              if u.total_received + write_result
                  (throttled_recv R io u.rate BUFFER_SIZE u.stream.length).2 io.disk ≥ u.next_chunk
              then u.log ++ [Ev.fsync (u.total_received + write_result
                (throttled_recv R io u.rate BUFFER_SIZE u.stream.length).2 io.disk)]
              else u.log } :=
  rfl

/-- An uninterrupted upload-receiving loop (every `recv` delivers something while
bytes are pending, every `write` is complete) writes the whole pending stream
at the file position, after a hole of zero bytes when that position lies past
the end of the file, and counts every byte. -/
theorem recv_loop_complete (R : Int) (ios : List IoStep) :
    ∀ u : Upload,
      (∀ io ∈ ios, 0 < io.res ∧ (BUFFER_SIZE : Int) ≤ io.disk) →
      u.stream.length ≤ ios.length → u.data.length ≤ u.pos →
      (recv_loop R ios u).data
        = (if u.stream = [] then u.data
            else u.data ++ List.replicate (u.pos - u.data.length) 0 ++ u.stream) ∧
      (recv_loop R ios u).total_received = u.total_received + u.stream.length := by
  induction ios with
  | nil =>
    intro u _ hlen _
    have : u.stream = [] := List.length_eq_zero.mp (by simpa using hlen)
    simp [recv_loop, this]
  | cons io ios ih =>
    intro u hio hlen hpos
    rw [recv_loop_cons]
    by_cases hs : u.stream = []
    · have h0 : (throttled_recv R io u.rate BUFFER_SIZE u.stream.length).2 = 0 := by
        rw [throttled_recv_eq]
        simp [hs, recv_result]
      rw [if_pos (by omega)]
      simp [hs]
    · have hpend : 0 < u.stream.length := List.length_pos.mpr hs
      have hr := throttled_recv_pos R io u.rate BUFFER_SIZE u.stream.length (by decide) hpend
        (hio io (List.mem_cons_self _ _)).1
      have hle := throttled_recv_le R io u.rate BUFFER_SIZE u.stream.length hr
      generalize (throttled_recv R io u.rate BUFFER_SIZE u.stream.length).2 = r at hr hle
      generalize (throttled_recv R io u.rate BUFFER_SIZE u.stream.length).1 = rate1
      have hdisk := (hio io (List.mem_cons_self _ _)).2
      have hw : write_result r io.disk = r := by
        unfold write_result
        rw [if_neg (by omega)]
        omega
      obtain ⟨k, hk⟩ : ∃ k : Nat, r = k := ⟨r.toNat, by omega⟩
      subst hk
      rw [if_neg (by omega), hw, if_neg (by omega)]
      simp only [Int.toNat_ofNat]
      have htl : (u.stream.take k).length = k := by
        rw [List.length_take]; omega
      have hne : u.stream.take k ≠ [] := by
        intro h0; rw [h0] at htl; simp at htl; omega
      have hwr := write_at_beyond u.data (u.stream.take k) u.pos hpos hne
      have h := ih
        { data := write_at u.data u.pos (u.stream.take k)
          pos := u.pos + (u.stream.take k).length
          total_received := u.total_received + k
          next_chunk := if u.total_received + k ≥ u.next_chunk then u.next_chunk + CHUNK_SIZE
            else u.next_chunk
          stream := u.stream.drop k
          rate := rate1
          log := if u.total_received + k ≥ u.next_chunk
            then u.log ++ [Ev.fsync (u.total_received + k)] else u.log }
        (fun io' h' => hio io' (List.mem_cons_of_mem _ h'))
        (by simp only [List.length_drop, List.length_cons] at hlen ⊢; omega)
        (by simp only [hwr, List.length_append, List.length_replicate]; omega)
      obtain ⟨h1, h2⟩ := h
      refine ⟨?_, ?_⟩
      · rw [h1]
        simp only [hs, if_false, hwr, List.length_append, List.length_replicate]
        have e : u.pos + (u.stream.take k).length
            - (u.data.length + (u.pos - u.data.length) + (u.stream.take k).length) = 0 := by omega
        rw [e]
        split
        · rename_i hd
          have : u.stream = u.stream.take k := by
            conv_lhs => rw [← List.take_append_drop k u.stream, hd, List.append_nil]
          rw [← this]
        · simp only [List.replicate_zero, List.append_nil, List.append_assoc,
            List.take_append_drop]
      · rw [h2]
        simp only [List.length_drop]
        omega

/-- A resumed upload on a server that has no `.part` file for the path: with a
marker offset `M` and the bytes `stream` arriving whole, the final file is `M`
zero bytes followed by `stream`. -/
theorem handle_send_fresh (env : SrvEnv) (M : Nat) (filepath : Path) (s : Srv)
    (hopen : env.open_ok = true) (hren : env.rename_ok = true)
    (hpart : s.fs.stat (snprintf 1024 (filepath ++ lit ".part")) = none)
    (hio : ∀ io ∈ env.ios, 0 < io.res ∧ (BUFFER_SIZE : Int) ≤ io.disk)
    (hlen : env.stream.length ≤ env.ios.length) (hne : env.stream ≠ []) :
    (handle_send env M filepath s).fs.stat filepath
      = some (List.replicate M 0 ++ env.stream) := by
  obtain ⟨h1, _, _⟩ := handle_send_renames env M filepath s hopen (by omega) hren
  rw [h1, hpart]
  obtain ⟨h2, _⟩ := recv_loop_complete env.RATE_LIMIT env.ios
    { data := []
      pos := M
      total_received := M
      next_chunk := (Int.tdiv M CHUNK_SIZE + 1) * CHUNK_SIZE
      stream := env.stream
      rate := s.rate
      log := s.log ++ [Ev.stat (snprintf 1024 (filepath ++ lit ".part")),
        Ev.opened (snprintf 1024 (filepath ++ lit ".part")),
        Ev.send (send_lit "OK\n" 3)] } hio hlen (by simp)
  simp only [Option.getD_none, Int.toNat_ofNat]
  rw [h2]
  simp [hne]

/-! ## C1: upload resume -/

set_option maxRecDepth 100000 in
/-- C1: an upload of a 130-byte file cut after the server has written 128 bytes and
then resumed does not reproduce the file. In the first run the client records
the marker 128 and the server, when the connection ends, renames its partial copy
to the final path. In the second run the client sends offset 128 and the last two
bytes; the server creates a fresh `.part` file, seeks to 128 and writes them, so
the final file is 128 zero bytes followed by the last two bytes. -/
theorem upload_resume_loses_prefix :
    headers cut_run_client.2.log = [lit "SEND|0|f"] ∧
    client_wire cut_run_client.2.log = upload_file.take 128 ∧
    cut_run_client.2.fs.stat (lit "in.part") = some (lit "128\n") ∧
    first_send cut_run_server.log = cut_attempt.response ∧
    cut_run_server.fs = [(lit "f", upload_file.take 128)] ∧
    headers resumed_run_client.2.log = [lit "SEND|128|f"] ∧
    client_wire resumed_run_client.2.log = upload_file.drop 128 ∧
    resumed_run_client.1 = 0 ∧
    resumed_run_client.2.fs.stat (lit "in.part") = none ∧
    first_send resumed_run_server.log = full_attempt.response ∧
    resumed_run_server.fs.stat (lit "f") = some (List.replicate 128 0 ++ [8, 9]) ∧
    resumed_run_server.fs.stat (lit "f") ≠ some upload_file := by
  decide

/-! ## C9: completion and the `.part` file -/

/-- C9: the server's upload branch renames the `.part` file to the final path after
a short `write` (four bytes received, one written: the final path is created
with that one byte and no `.part` file is left), and the client's download
branch, which does not look at the result of `write`, does the same. -/
theorem partial_file_renamed :
    (client_handler env_short_write (lit "SEND|0|f") (srv0 [])).fs = [(lit "f", [1])] ∧
    (client_handler env_short_write (lit "SEND|0|f") (srv0 [])).fs.stat (lit "f.part") = none ∧
    Ev.renamed (lit "f.part") (lit "f")
      ∈ (client_handler env_short_write (lit "SEND|0|f") (srv0 [])).log ∧
    (client_handler (env_upload [1, 2]) (lit "SEND|0|f") (srv0 [])).fs = [(lit "f", [1, 2])] ∧
    (transfer_file (fun _ => short_write_attempt) (lit "h:f") (lit "out") []).2.fs
      = [(lit "out", [1])] := by
  decide

/-! ## The loops, iteration by iteration -/

theorem download_loop_step (limit : Int) (io : CStep) (ios : List CStep) (d : Download) :
    download_loop limit (io :: ios) d =
      match download_step limit io d with
      | none => d
      | some d1 => download_loop limit ios d1 := by
  rw [download_loop_cons]
  unfold download_step
  by_cases h1 : d.total_received < limit
  · by_cases h2 : recv_result BUFFER_SIZE d.stream.length io.res ≤ 0
    · simp only [h1, h2, if_true]
    · simp only [h1, h2, if_true, if_false]
  · simp only [h1, if_false]

/-- The download loop ends in the state after its last iteration. -/
theorem download_loop_last (limit : Int) (ios : List CStep) :
    ∀ d : Download, download_loop limit ios d = (download_iterations limit ios d).getLastD d := by
  induction ios with
  | nil => intro d; rfl
  | cons io ios ih =>
    intro d
    rw [download_loop_step]
    simp only [download_iterations]
    cases h : download_step limit io d with
    | none => rfl
    | some d1 =>
      simp only [ih d1, List.getLastD_cons]

theorem recv_loop_step (R : Int) (io : IoStep) (ios : List IoStep) (u : Upload) :
    recv_loop R (io :: ios) u =
      if (recv_step R io u).2 then recv_loop R ios (recv_step R io u).1
      else (recv_step R io u).1 := by
  rw [recv_loop_cons]
  unfold recv_step
  by_cases h1 : (throttled_recv R io u.rate BUFFER_SIZE u.stream.length).2 ≤ 0
  · simp only [h1, if_true, Bool.false_eq_true, if_false]
  · by_cases h2 : write_result (throttled_recv R io u.rate BUFFER_SIZE u.stream.length).2 io.disk
        < (throttled_recv R io u.rate BUFFER_SIZE u.stream.length).2
    · simp only [h1, h2, if_true, if_false, Bool.false_eq_true]
    · simp only [h1, h2, if_true, if_false]

/-- The upload-receiving loop ends in the state after its last iteration. -/
theorem recv_loop_last (R : Int) (ios : List IoStep) :
    ∀ u : Upload, recv_loop R ios u = (recv_iterations R ios u).getLastD u := by
  induction ios with
  | nil => intro u; rfl
  | cons io ios ih =>
    intro u
    rw [recv_loop_step]
    simp only [recv_iterations]
    by_cases h : (recv_step R io u).2 = true
    · simp only [h, if_true, ih, List.getLastD_cons]
    · simp only [h, if_false, Bool.false_eq_true]
      rfl

theorem send_buf_cons (part_file : Path) (marker_ok : Bool) (io : CStep) (ios : List CStep)
    (b : Nat) (bs : List Nat) (u : UploadC) :
    send_buf part_file marker_ok (io :: ios) (b :: bs) u =
      match send_step part_file marker_ok io (b :: bs) u with
      | none => (false, ios, u)
      | some r => send_buf part_file marker_ok ios r.1 r.2 := by
  unfold send_step
  by_cases h : sock_result ((b :: bs).length : Nat) io.res ≤ 0
  · simp only [h, if_true]
    rw [send_buf]
    simp only [h, if_true]
  · simp only [h, if_false]
    rw [send_buf]
    simp only [h, if_false]

/-- The inner upload loop ends in the state after its last iteration. -/
theorem send_buf_last (part_file : Path) (marker_ok : Bool) (ios : List CStep) :
    ∀ (buf : List Nat) (u : UploadC),
      (send_buf part_file marker_ok ios buf u).2.2
        = (send_buf_iterations part_file marker_ok ios buf u).getLastD u := by
  induction ios with
  | nil =>
    intro buf u
    cases buf <;> simp [send_buf, send_buf_iterations]
  | cons io ios ih =>
    intro buf u
    cases buf with
    | nil => simp [send_buf, send_buf_iterations]
    | cons b bs =>
      rw [send_buf_cons]
      simp only [send_buf_iterations]
      cases h : send_step part_file marker_ok io (b :: bs) u with
      | none => rfl
      | some r => simp only [ih r.1 r.2, List.getLastD_cons]

theorem getLastD_append_getLastD {α : Type} (l1 l2 : List α) (a : α) :
    (l1 ++ l2).getLastD a = l2.getLastD (l1.getLastD a) := by
  induction l1 generalizing a with
  | nil => rfl
  | cons x xs ih => simp only [List.cons_append, List.getLastD_cons, ih]

/-- The outer upload loop ends in the state after the last iteration of its inner loop. -/
theorem upload_loop_last (part_file : Path) (marker_ok : Bool) (fuel : Nat) :
    ∀ (ios : List CStep) (rest : List Nat) (u : UploadC),
      (upload_loop part_file marker_ok fuel ios rest u).2
        = (upload_iterations part_file marker_ok fuel ios rest u).getLastD u := by
  induction fuel with
  | zero => intro ios rest u; rfl
  | succ fuel ih =>
    intro ios rest u
    simp only [upload_loop, upload_iterations]
    split
    · rfl
    · rename_i b bs hbuf
      rw [getLastD_append_getLastD, ← send_buf_last]
      by_cases hok : (send_buf part_file marker_ok ios (b :: bs) u).1 = true
      · simp only [hok, if_true, ih]
      · simp only [hok, if_false, Bool.false_eq_true]
        rfl

theorem chain_append_last {α : Type} (R : α → α → Prop) (l1 l2 : List α) (a : α)
    (h1 : List.Chain R a l1) (h2 : List.Chain R (l1.getLastD a) l2) :
    List.Chain R a (l1 ++ l2) := by
  induction l1 generalizing a with
  | nil => exact h2
  | cons x xs ih =>
    rw [List.chain_cons] at h1
    rw [List.getLastD_cons] at h2
    exact List.chain_cons.mpr ⟨h1.1, ih x h1.2 h2⟩

/-! ## The checkpoint threshold -/

theorem chunk_size_cast : ((CHUNK_SIZE : Nat) : Int) = 128 := rfl

theorem chunk_inv_init (offset : Int) (hoff : 0 ≤ offset) :
    chunk_inv offset ((Int.tdiv offset CHUNK_SIZE + 1) * CHUNK_SIZE) ∧
    ((Int.tdiv offset CHUNK_SIZE + 1) * CHUNK_SIZE) % CHUNK_SIZE = 0 ∧
    offset < (Int.tdiv offset CHUNK_SIZE + 1) * CHUNK_SIZE ∧
    (Int.tdiv offset CHUNK_SIZE + 1) * CHUNK_SIZE ≤ offset + CHUNK_SIZE := by
  rw [chunk_size_cast, Int.tdiv_eq_ediv hoff (by decide)]
  unfold chunk_inv
  omega

/-- One counted iteration: the invariant is kept, and when the count crosses a
multiple of `CHUNK_SIZE` the threshold test succeeds. -/
theorem chunk_inv_step (total next_chunk r : Int) (hinv : chunk_inv total next_chunk)
    (hr : 0 < r) :
    chunk_inv (total + r)
      (if total + r ≥ next_chunk then next_chunk + CHUNK_SIZE else next_chunk) ∧
    (crosses total (total + r) → total + r ≥ next_chunk) := by
  rw [chunk_size_cast]
  unfold chunk_inv at *
  refine ⟨?_, ?_⟩
  · split <;> omega
  · rintro ⟨k, hk1, hk2⟩
    rw [chunk_size_cast] at hk1 hk2
    omega

/-- Every counted iteration of the download loop that crosses a multiple of
`CHUNK_SIZE` appends the `fsync` of that iteration to the trace. -/
theorem download_chain (limit : Int) (ios : List CStep) :
    ∀ d : Download, chunk_inv d.total_received d.next_chunk →
      List.Chain (fun a b : Download => a.total_received < b.total_received ∧
          (crosses a.total_received b.total_received →
            b.log = a.log ++ [CEv.fsync b.total_received]))
        d (download_iterations limit ios d) := by
  induction ios with
  | nil => intro d _; exact List.Chain.nil
  | cons io ios ih =>
    intro d hinv
    simp only [download_iterations]
    cases h : download_step limit io d with
    | none => exact List.Chain.nil
    | some d1 =>
      unfold download_step at h
      by_cases h1 : d.total_received < limit
      · by_cases h2 : recv_result BUFFER_SIZE d.stream.length io.res ≤ 0
        · simp [h1, h2] at h
        · simp only [h1, h2, if_true, if_false, Option.some.injEq] at h
          obtain ⟨hi, hc⟩ := chunk_inv_step d.total_received d.next_chunk
            (recv_result BUFFER_SIZE d.stream.length io.res) hinv (by omega)
          subst h
          refine List.Chain.cons ⟨?_, ?_⟩ (ih _ hi)
          · simp only; omega
          · intro hx
            simp only [hc hx, if_true]
      · simp [h1] at h

/-- Every counted iteration of the upload-receiving loop that crosses a multiple of
`CHUNK_SIZE` appends the `fsync` of that iteration to the trace; the iteration
that leaves the loop does not change the count. -/
theorem recv_chain (R : Int) (ios : List IoStep) :
    ∀ u : Upload, chunk_inv u.total_received u.next_chunk →
      List.Chain (fun a b : Upload => a.total_received ≤ b.total_received ∧
          (crosses a.total_received b.total_received →
            b.log = a.log ++ [Ev.fsync b.total_received]))
        u (recv_iterations R ios u) := by
  have hno : ∀ t : Int, ¬ crosses t t := by
    rintro t ⟨k, h1, h2⟩
    omega
  induction ios with
  | nil => intro u _; exact List.Chain.nil
  | cons io ios ih =>
    intro u hinv
    simp only [recv_iterations]
    by_cases h1 : (throttled_recv R io u.rate BUFFER_SIZE u.stream.length).2 ≤ 0
    · have hs : recv_step R io u
          = ({ u with rate := (throttled_recv R io u.rate BUFFER_SIZE u.stream.length).1 },
              false) := by
        unfold recv_step; simp only [h1, if_true]
      rw [hs]
      simp only [Bool.false_eq_true, if_false]
      exact List.Chain.cons ⟨le_refl _, fun hx => absurd hx (hno _)⟩ List.Chain.nil
    · by_cases h2 : write_result (throttled_recv R io u.rate BUFFER_SIZE u.stream.length).2 io.disk
          < (throttled_recv R io u.rate BUFFER_SIZE u.stream.length).2
      · have hs : (recv_step R io u).2 = false ∧
            (recv_step R io u).1.total_received = u.total_received := by
          unfold recv_step; simp only [h1, h2, if_true, if_false, and_self]
        simp only [hs.1, Bool.false_eq_true, if_false]
        refine List.Chain.cons ⟨by rw [hs.2], fun hx => ?_⟩ List.Chain.nil
        rw [hs.2] at hx
        exact absurd hx (hno _)
      · have hw : write_result (throttled_recv R io u.rate BUFFER_SIZE u.stream.length).2 io.disk
            = (throttled_recv R io u.rate BUFFER_SIZE u.stream.length).2 := by
          unfold write_result at h2 ⊢
          split
          · rename_i hd; rw [if_pos hd] at h2; omega
          · rename_i hd; rw [if_neg hd] at h2; omega
        obtain ⟨hi, hc⟩ := chunk_inv_step u.total_received u.next_chunk
          (throttled_recv R io u.rate BUFFER_SIZE u.stream.length).2 hinv (by omega)
        have hs : recv_step R io u
            = ({ data := write_at u.data u.pos (u.stream.take
                  (throttled_recv R io u.rate BUFFER_SIZE u.stream.length).2.toNat)
                 pos := u.pos + (u.stream.take
                  (throttled_recv R io u.rate BUFFER_SIZE u.stream.length).2.toNat).length
                 total_received := u.total_received
                  + (throttled_recv R io u.rate BUFFER_SIZE u.stream.length).2
                 next_chunk :=
                  if u.total_received + (throttled_recv R io u.rate BUFFER_SIZE u.stream.length).2
                      ≥ u.next_chunk then u.next_chunk + CHUNK_SIZE else u.next_chunk
                 stream := u.stream.drop
                  (throttled_recv R io u.rate BUFFER_SIZE u.stream.length).2.toNat
                 rate := (throttled_recv R io u.rate BUFFER_SIZE u.stream.length).1
                 log :=
                  if u.total_received + (throttled_recv R io u.rate BUFFER_SIZE u.stream.length).2
                      ≥ u.next_chunk
                  then u.log ++ [Ev.fsync (u.total_received
                    + (throttled_recv R io u.rate BUFFER_SIZE u.stream.length).2)]
                  else u.log }, true) := by
          unfold recv_step
          simp only [h1, if_false, hw, lt_self_iff_false]
        rw [hs]
        simp only [if_true]
        refine List.Chain.cons ⟨?_, ?_⟩ (ih _ hi)
        · simp only; omega
        · intro hx
          simp only [hc hx, if_true]

/-- Every iteration of the inner upload loop that crosses a multiple of `CHUNK_SIZE`
rewrites the marker with the new count in that iteration; the invariant holds
again when the buffer is done. -/
theorem send_buf_chain (part_file : Path) (marker_ok : Bool) (ios : List CStep) :
    ∀ (buf : List Nat) (u : UploadC), chunk_inv u.total_sent u.next_chunk →
      List.Chain (fun a b : UploadC => a.total_sent < b.total_sent ∧
          (crosses a.total_sent b.total_sent →
            ∃ bs, b.log = a.log ++ [CEv.sent bs, CEv.marker b.total_sent] ∧
              b.fs = update_send_part_offset marker_ok a.fs part_file b.total_sent ∧
              (marker_ok = true → b.fs.stat part_file
                = some (snprintf 64 (fmt_lld b.total_sent ++ lit "\n")))))
        u (send_buf_iterations part_file marker_ok ios buf u) ∧
      chunk_inv (send_buf part_file marker_ok ios buf u).2.2.total_sent
        (send_buf part_file marker_ok ios buf u).2.2.next_chunk := by
  induction ios with
  | nil =>
    intro buf u hinv
    cases buf <;> exact ⟨List.Chain.nil, by simpa [send_buf] using hinv⟩
  | cons io ios ih =>
    intro buf u hinv
    cases buf with
    | nil => exact ⟨List.Chain.nil, by simpa [send_buf] using hinv⟩
    | cons b bs =>
      rw [send_buf_cons]
      simp only [send_buf_iterations]
      cases h : send_step part_file marker_ok io (b :: bs) u with
      | none => exact ⟨List.Chain.nil, hinv⟩
      | some r =>
        unfold send_step at h
        simp only at h
        generalize sock_result (((b :: bs).length : Nat) : Int) io.res = sv at h
        by_cases h1 : sv ≤ 0
        · rw [if_pos h1] at h
          exact absurd h (by simp)
        · rw [if_neg h1, Option.some.injEq] at h
          obtain ⟨hi, hc⟩ := chunk_inv_step u.total_sent u.next_chunk sv hinv (by omega)
          subst h
          simp only
          by_cases hx : u.total_sent + sv ≥ u.next_chunk
          · simp only [hx, if_true] at hi ⊢
            obtain ⟨g1, g2⟩ := ih ((b :: bs).drop sv.toNat)
              { total_sent := u.total_sent + sv
                next_chunk := u.next_chunk + CHUNK_SIZE
                fs := update_send_part_offset marker_ok u.fs part_file (u.total_sent + sv)
                log := u.log ++ [CEv.sent ((b :: bs).take sv.toNat)]
                  ++ [CEv.marker (u.total_sent + sv)] } hi
            refine ⟨List.Chain.cons ⟨?_, ?_⟩ g1, g2⟩
            · simp only; omega
            · intro _
              refine ⟨(b :: bs).take sv.toNat, by simp, rfl, ?_⟩
              intro hm
              simp only [update_send_part_offset, hm, if_true]
              exact FS.stat_put_self _ _ _
          · simp only [hx, if_false] at hi ⊢
            obtain ⟨g1, g2⟩ := ih ((b :: bs).drop sv.toNat)
              { u with total_sent := u.total_sent + sv
                       log := u.log ++ [CEv.sent ((b :: bs).take sv.toNat)] } hi
            refine ⟨List.Chain.cons ⟨?_, ?_⟩ g1, g2⟩
            · simp only; omega
            · intro hcr
              exact absurd (hc hcr) hx

theorem upload_chain (part_file : Path) (marker_ok : Bool) (fuel : Nat) :
    ∀ (ios : List CStep) (rest : List Nat) (u : UploadC), chunk_inv u.total_sent u.next_chunk →
      List.Chain (fun a b : UploadC => a.total_sent < b.total_sent ∧
          (crosses a.total_sent b.total_sent →
            ∃ bs, b.log = a.log ++ [CEv.sent bs, CEv.marker b.total_sent] ∧
              b.fs = update_send_part_offset marker_ok a.fs part_file b.total_sent ∧
              (marker_ok = true → b.fs.stat part_file
                = some (snprintf 64 (fmt_lld b.total_sent ++ lit "\n")))))
        u (upload_iterations part_file marker_ok fuel ios rest u) := by
  induction fuel with
  | zero => intro ios rest u _; exact List.Chain.nil
  | succ fuel ih =>
    intro ios rest u hinv
    simp only [upload_iterations]
    split
    · exact List.Chain.nil
    · rename_i b bs hbuf
      obtain ⟨g1, g2⟩ := send_buf_chain part_file marker_ok ios (b :: bs) u hinv
      apply chain_append_last _ _ _ _ g1
      rw [← send_buf_last]
      by_cases hok : (send_buf part_file marker_ok ios (b :: bs) u).1 = true
      · simp only [hok, if_true]
        exact ih _ _ _ g2
      · simp only [hok, if_false, Bool.false_eq_true]
        exact List.Chain.nil

/-! ## C11: checkpoint firing -/

/-- C11: for every starting offset `≥ 0`, `next_chunk` starts at the smallest
multiple of 128 strictly greater than the offset, and in each of the three
loops that keep durable state (client download, server upload-receive, client
upload) every iteration whose bytes carry the cumulative count to or past a
multiple of 128 not reached before performs its checkpoint in that same
iteration: the `fsync` of the `.part` file with the new count is the one action
it adds to the trace, respectively the marker is rewritten with the new count
right after the `send`. The iterations are those of the loop: it ends in the
state after the last of them, and the count grows in every counted iteration. -/
theorem checkpoint_fires (offset : Int) (hoff : 0 ≤ offset) :
    (((Int.tdiv offset CHUNK_SIZE + 1) * CHUNK_SIZE) % CHUNK_SIZE = 0 ∧
      offset < (Int.tdiv offset CHUNK_SIZE + 1) * CHUNK_SIZE ∧
      (Int.tdiv offset CHUNK_SIZE + 1) * CHUNK_SIZE ≤ offset + CHUNK_SIZE) ∧
    (∀ (limit : Int) (ios : List CStep) (d : Download), d.total_received = offset →
      d.next_chunk = (Int.tdiv offset CHUNK_SIZE + 1) * CHUNK_SIZE →
      download_loop limit ios d = (download_iterations limit ios d).getLastD d ∧
      List.Chain (fun a b : Download => a.total_received < b.total_received ∧
          (crosses a.total_received b.total_received →
            b.log = a.log ++ [CEv.fsync b.total_received]))
        d (download_iterations limit ios d)) ∧
    (∀ (R : Int) (ios : List IoStep) (u : Upload), u.total_received = offset →
      u.next_chunk = (Int.tdiv offset CHUNK_SIZE + 1) * CHUNK_SIZE →
      recv_loop R ios u = (recv_iterations R ios u).getLastD u ∧
      List.Chain (fun a b : Upload => a.total_received ≤ b.total_received ∧
          (crosses a.total_received b.total_received →
            b.log = a.log ++ [Ev.fsync b.total_received]))
        u (recv_iterations R ios u)) ∧
    (∀ (part_file : Path) (marker_ok : Bool) (fuel : Nat) (ios : List CStep) (rest : List Nat)
        (u : UploadC), u.total_sent = offset →
      u.next_chunk = (Int.tdiv offset CHUNK_SIZE + 1) * CHUNK_SIZE →
      (upload_loop part_file marker_ok fuel ios rest u).2
        = (upload_iterations part_file marker_ok fuel ios rest u).getLastD u ∧
      List.Chain (fun a b : UploadC => a.total_sent < b.total_sent ∧
          (crosses a.total_sent b.total_sent →
            ∃ bs, b.log = a.log ++ [CEv.sent bs, CEv.marker b.total_sent] ∧
              b.fs = update_send_part_offset marker_ok a.fs part_file b.total_sent ∧
              (marker_ok = true → b.fs.stat part_file
                = some (snprintf 64 (fmt_lld b.total_sent ++ lit "\n")))))
        u (upload_iterations part_file marker_ok fuel ios rest u)) := by
  obtain ⟨hinv, h1, h2, h3⟩ := chunk_inv_init offset hoff
  refine ⟨⟨h1, h2, h3⟩, ?_, ?_, ?_⟩
  · intro limit ios d ht hn
    exact ⟨download_loop_last limit ios d, download_chain limit ios d (by rw [ht, hn]; exact hinv)⟩
  · intro R ios u ht hn
    exact ⟨recv_loop_last R ios u, recv_chain R ios u (by rw [ht, hn]; exact hinv)⟩
  · intro part_file marker_ok fuel ios rest u ht hn
    exact ⟨upload_loop_last part_file marker_ok fuel ios rest u,
      upload_chain part_file marker_ok fuel ios rest u (by rw [ht, hn]; exact hinv)⟩

theorem checkpoint_fires_witness :
    (0 : Int) ≤ 100 ∧ crosses 100 150 ∧
    download_iterations 1000 checkpoint_steps checkpoint_start
      = [checkpoint_first, checkpoint_second] ∧
    checkpoint_first.log = checkpoint_start.log ++ [CEv.fsync checkpoint_first.total_received] :=
  have hc : crosses 100 150 := ⟨1, by decide, by decide⟩
  have hit : download_iterations 1000 checkpoint_steps checkpoint_start
      = [checkpoint_first, checkpoint_second] := by decide
  have h := ((checkpoint_fires 100 (by decide)).2.1 1000 checkpoint_steps checkpoint_start
    rfl rfl).2
  ⟨by decide, hc, hit, ((List.chain_cons.mp (hit ▸ h)).1).2 hc⟩

/-! ## C8: bytes moved inside one window by interleaved connections -/

/-- A throttled call whose four steps run without any step of another connection
in between is the function `throttled_send`: same counter afterwards, and the
bytes moved are its return value when that is positive. -/
theorem rate_run_throttled_send (R : Int) (io : IoStep) (st : RateState) (length : Nat)
    (m : Int) :
    rate_run R { rate := st, phases := [Phase.idle], moved := m }
        [RateEv.poll 0 io.now io.clients, RateEv.cap 0 io.now io.clients length,
         RateEv.move 0 io.res none, RateEv.count 0]
      = some { rate := (throttled_send R io st length).1, phases := [Phase.idle],
               moved := m + (if (throttled_send R io st length).2 > 0
                 then (throttled_send R io st length).2 else 0) } := by
  simp [rate_run, rate_step, wait_for_available_bytes_succ, throttled_send_eq,
    get_available_bytes_idem]

/-- The same for `throttled_recv`. -/
theorem rate_run_throttled_recv (R : Int) (io : IoStep) (st : RateState) (length : Nat)
    (pending : Nat) (m : Int) :
    rate_run R { rate := st, phases := [Phase.idle], moved := m }
        [RateEv.poll 0 io.now io.clients, RateEv.cap 0 io.now io.clients length,
         RateEv.move 0 io.res (some pending), RateEv.count 0]
      = some { rate := (throttled_recv R io st length pending).1, phases := [Phase.idle],
               moved := m + (if (throttled_recv R io st length pending).2 > 0
                 then (throttled_recv R io st length pending).2 else 0) } := by
  simp [rate_run, rate_step, wait_for_available_bytes_succ, throttled_recv_eq,
    get_available_bytes_idem]

/-- Steps of different connections interleave: with RATE_LIMIT = 1024, two
connections that both read the counter before either has sent are both granted
the whole budget, and two calls move 2048 bytes. -/
theorem rate_interleaved_grants :
    rate_run 1024 (rate_init 0 2) interleaved_steps = some interleaved_final ∧
    interleaved_final.moved = 2048 := by
  decide

end Trab
